import Mathlib

/-!
Verification development for the `incidecoder_scraper` package
(`scraper.py`, `storage.py`).

The extraction engine is embedded at the level of the tag/text event stream
that Python's `html.parser` delivers to the overridden `handle_starttag`,
`handle_endtag` and `handle_data` callbacks: a markup input is modelled as the
list of those events.  External collaborators of the code under analysis —
`json.loads`, `float()`/`int()` conversion of JSON scalars — are modelled as
explicit function parameters bundled in an `Env`, so every theorem quantifies
over their behaviour.  Machine floats are modelled as rationals.
-/

namespace Scrape

/-! ### Kernel-reducible string operations

Lean's built-in `String` functions are implemented against byte positions and
do not reduce inside the kernel, so the embedding re-implements the handful of
Python string operations it needs over `String.data` (ASCII-faithful, which
covers this site's markup conventions). -/

/-- Python `s.lower()` (ASCII). -/
def lowerStr (s : String) : String := String.mk (s.data.map Char.toLower)

def isPrefixList : List Char → List Char → Bool
  | [], _ => true
  | _ :: _, [] => false
  | a :: as, b :: bs => a = b && isPrefixList as bs

/-- Python `s.startswith(pre)`. -/
def strStartsWith (s pre : String) : Bool := isPrefixList pre.data s.data

/-- Python `s.endswith(suf)`. -/
def strEndsWith (s suf : String) : Bool := isPrefixList suf.data.reverse s.data.reverse

def strTakeWhile (p : Char → Bool) (s : String) : String := String.mk (s.data.takeWhile p)

def strDropWhile (p : Char → Bool) (s : String) : String := String.mk (s.data.dropWhile p)

/-- Python `s.strip()` (whitespace). -/
def strTrim (s : String) : String :=
  String.mk (((s.data.dropWhile Char.isWhitespace).reverse.dropWhile Char.isWhitespace).reverse)

def splitListOnPred (p : Char → Bool) : List Char → List (List Char)
  | [] => [[]]
  | c :: cs =>
    match splitListOnPred p cs with
    | [] => [[]]
    | h :: t => if p c then [] :: h :: t else (c :: h) :: t

/-- Python `s.split(sep)` for a one-character separator. -/
def strSplitOnChar (sep : Char) (s : String) : List String :=
  (splitListOnPred (fun c => c = sep) s.data).map String.mk

/-- Python `s.replace(a, b)` for one-character `a`, `b`. -/
def replaceChar (a b : Char) (s : String) : String :=
  String.mk (s.data.map (fun c => if c = a then b else c))

/-- Code-point lexicographic `x <= y` (Python string comparison). -/
def lexLeChars : List Char → List Char → Bool
  | [], _ => true
  | _ :: _, [] => false
  | a :: as, b :: bs => if a = b then lexLeChars as bs else decide (a.toNat < b.toNat)

def strLe (x y : String) : Bool := lexLeChars x.data y.data

/-- Python `s.lstrip("/")`. -/
def lstripSlash (s : String) : String := strDropWhile (fun c => c = '/') s

/-- Python `s.rstrip("/")`. -/
def rstripSlash (s : String) : String :=
  String.mk ((s.data.reverse.dropWhile (fun c => c = '/')).reverse)

/-- Models `urllib.parse.urljoin(base + "/", href.lstrip("/"))`, the only join
shape the scraper uses for ingredient/brand/tooltip links: an absolute http(s)
URL is returned unchanged, anything else is attached below the base. -/
def absolutize (base href : String) : String :=
  if strStartsWith href "http://" || strStartsWith href "https://" then href
  else base ++ "/" ++ lstripSlash href

/-- Models `urllib.parse.urljoin(currentUrl, link)` for the pagination links of
`_discover_products_for_brand`; those always start with `"?page="` (the
collector prefix), replacing the query of the current URL. -/
def joinQuery (current link : String) : String :=
  if strStartsWith link "http://" || strStartsWith link "https://" then link
  else if strStartsWith link "?" then strTakeWhile (fun c => c ≠ '?') current ++ link
  else absolutize (rstripSlash current) link

/-- Truthiness of an optional Python string (`None` and `""` are falsy). -/
def strTruthy : Option String → Bool
  | none => false
  | some s => s ≠ ""

/-- Python `a or b` on optional strings. -/
def pyOrS (a b : Option String) : Option String := if strTruthy a then a else b

/-- `(x or "").strip() or None` — the attribute-normalisation idiom of the
parser. -/
def stripOrNone (x : Option String) : Option String :=
  let t := strTrim (x.getD "")
  if t = "" then none else some t

/-! ### JSON values (the result of `json.loads`) -/

inductive Json where
  | null
  | bool (b : Bool)
  | num (v : Rat)
  | str (s : String)
  | arr (items : List Json)
  | obj (fields : List (String × Json))
deriving Repr, Inhabited

/-- `node.get(k)` for an object node (`None` for all other shapes). -/
def jget (j : Json) (k : String) : Option Json :=
  match j with
  | .obj fs => (fs.find? (fun p => p.1 = k)).map (fun p => p.2)
  | _ => none

/-- Python truthiness of a JSON value. -/
def jTruthy : Json → Bool
  | .null => false
  | .bool b => b
  | .num v => v ≠ 0
  | .str s => s ≠ ""
  | .arr l => !l.isEmpty
  | .obj l => !l.isEmpty

def jTruthyOpt : Option Json → Bool
  | none => false
  | some j => jTruthy j

/-- Python `a or b` on optional JSON values (as returned by `dict.get`). -/
def pyOrJ (a b : Option Json) : Option Json := if jTruthyOpt a then a else b

mutual
/-- `ProductHTMLParser._iter_json_nodes`: yield every dict node (the node
itself before its values), recurse into lists. -/
def iterNodes : Json → List Json
  | .obj fs => Json.obj fs :: iterNodesFields fs
  | .arr xs => iterNodesArr xs
  | _ => []

def iterNodesFields : List (String × Json) → List Json
  | [] => []
  | (_, v) :: fs => iterNodes v ++ iterNodesFields fs

def iterNodesArr : List Json → List Json
  | [] => []
  | x :: xs => iterNodes x ++ iterNodesArr xs
end

/-- `isinstance(node, dict) and node.get("@type") in {"Product", "ProductGroup"}`. -/
def isProductNode (j : Json) : Bool :=
  match j with
  | .obj _ =>
    match jget j "@type" with
    | some (.str s) => s = "Product" || s = "ProductGroup"
    | _ => false
  | _ => false

/-- First `Product`/`ProductGroup` dict node of a parsed block. -/
def firstProductNode (j : Json) : Option Json := (iterNodes j).find? isProductNode

/-- The block loop of `parse` (scraper.py lines 647-657): blocks that fail to
decode are skipped, blocks without a matching node are skipped, the first
matching node of the first block holding one wins.  `jdec` models
`json.loads` returning `none` on a `JSONDecodeError`. -/
def findJsonLd (jdec : String → Option Json) : List String → Option Json
  | [] => none
  | b :: bs =>
    match jdec b with
    | none => findJsonLd jdec bs
    | some parsed =>
      match firstProductNode parsed with
      | some node => some node
      | none => findJsonLd jdec bs

/-! ### Ordered string-keyed dictionaries (Python `dict` semantics) -/

/-- `d.get(k)`. -/
def dictGet {α : Type} (m : List (String × α)) (k : String) : Option α :=
  (m.find? (fun p => p.1 = k)).map (fun p => p.2)

/-- `d[k] = v`: replace in place (keeping the key's position) or append.
(Every dict in the scraper is built from `[]` through these operations, so
keys are never duplicated.) -/
def dictSet {α : Type} : List (String × α) → String → α → List (String × α)
  | [], k, v => [(k, v)]
  | (k0, v0) :: rest, k, v =>
    if k0 = k then (k, v) :: rest else (k0, v0) :: dictSet rest k v

/-- `d.setdefault(k, v)`. -/
def dictSetdefault {α : Type} (m : List (String × α)) (k : String) (v : α) :
    List (String × α) :=
  if (m.find? (fun p => p.1 = k)).isSome then m else m ++ [(k, v)]

/-- `d.update(other)`. -/
def dictUpdate {α : Type} (m other : List (String × α)) : List (String × α) :=
  other.foldl (fun acc p => dictSet acc p.1 p.2) m

/-- Python `set` of strings kept as an insertion-ordered duplicate-free list. -/
def setAdd (s : List String) (x : String) : List String :=
  if x ∈ s then s else s ++ [x]

/-- Insert into an ascending (code-point order) list. -/
def insertSorted (x : String) : List String → List String
  | [] => [x]
  | y :: ys => if strLe x y then x :: y :: ys else y :: insertSorted x ys

/-- `sorted(...)` on strings (Python's lexicographic code-point order). -/
def sortStrings (l : List String) : List String :=
  l.foldr insertSorted []

/-! ### Ingredient extras (`Ingredient.extra`: `Dict[str, Any]`) -/

/-- The values the scraper ever stores in an extras dict: tooltip title/text
strings and tooltip link lists.  `null` stands for Python `None`. -/
inductive ExtraVal where
  | s (v : String)
  | ls (v : List String)
  | null
deriving Repr, DecidableEq

abbrev ExtraMap := List (String × ExtraVal)

/-- `value in (None, "", [])` — the blank test of `_register_ingredient_extra`. -/
def extraValBlank : ExtraVal → Bool
  | .null => true
  | .s v => v = ""
  | .ls v => v = []

structure Ingredient where
  name : String
  url : String
  extra : ExtraMap := []
deriving Repr, DecidableEq

/-- A function/highlight block entry (a Python dict with the fixed keys
`name`/`title`/`items`/`text`/`links`; absent keys are `none`/`[]`). -/
structure BlockEntry where
  name : Option String := none
  title : Option String := none
  items : List String := []
  text : Option String := none
  links : List String := []
deriving Repr, DecidableEq

/-- `if entry:` — the dict is empty iff no key was ever set. -/
def BlockEntry.isEmpty (e : BlockEntry) : Bool :=
  e.name = none && e.title = none && e.items = [] && e.text = none && e.links = []

structure Product where
  url : String
  name : Option String := none
  brand : Option String := none
  description : Option String := none
  imageUrl : Option String := none
  ratingValue : Option Rat := none
  ratingCount : Option Int := none
  categories : List String := []
  ingredients : List Ingredient := []
  materials : List String := []
  functions : List BlockEntry := []
  highlights : List BlockEntry := []
  jsonLd : Option Json := none
  rawBrandLinks : List String := []
deriving Repr, Inhabited

/-! ### HTML events

A markup input is the stream of callbacks Python's `html.parser` produces for
it: `start` for `handle_starttag`, `stop` for `handle_endtag`, `text` for
`handle_data` (a self-closing tag appears as `start` followed by `stop`, which
is what the default `handle_startendtag` does). -/

inductive HtmlEvent where
  | start (tag : String) (attrs : List (String × Option String))
  | stop (tag : String)
  | text (s : String)
deriving Repr, DecidableEq

/-- `dict(attrs).get(k)`: the last binding of `k` wins; an attribute present
without a value is Python `None`, indistinguishable from an absent key. -/
def attrGet (attrs : List (String × Option String)) (k : String) : Option String :=
  match attrs.reverse.find? (fun p => p.1 = k) with
  | some (_, v) => v
  | none => none

/-! ### LinkCollector -/

/-- `href.split("#", 1)[0]`. -/
def dropFragment (href : String) : String := strTakeWhile (fun c => c ≠ '#') href

def lcMatch (prefixes : List String) (href : String) : Bool :=
  prefixes.any (fun p => strStartsWith href p)

def lcAdd (links : List String) (x : String) : List String :=
  if x ∈ links then links else links ++ [x]

/-- `LinkCollector.handle_starttag` (scraper.py lines 137-149). -/
def lcStep (prefixes : List String) (links : List String) : HtmlEvent → List String
  | .start tag attrs =>
    if tag = "a" then
      match attrGet attrs "href" with
      | none => links
      | some href =>
        if href = "" then links
        else if lcMatch prefixes href then lcAdd links (dropFragment href)
        else links
    else links
  | _ => links

/-- Feeding a whole event stream to a fresh `LinkCollector`. -/
def lcFeed (prefixes : List String) (events : List HtmlEvent) : List String :=
  events.foldl (lcStep prefixes) []

/-- First-occurrence deduplication, written as the specification describes it:
keep each element's first occurrence, in order. -/
def dedupKeepFirstAux {α : Type} [DecidableEq α] : Nat → List α → List α
  | 0, _ => []
  | _, [] => []
  | fuel + 1, x :: xs => x :: dedupKeepFirstAux fuel (xs.filter (fun y => y ≠ x))

def dedupKeepFirst {α : Type} [DecidableEq α] (l : List α) : List α :=
  dedupKeepFirstAux l.length l

/-! ### ProductHTMLParser -/

/-- The one kind of exception the parser's own handler code can raise: an
attribute access on Python `None` (`None.split()` / `None.lower()` /
`None.strip()`). -/
inductive PyErr where
  | attributeError
deriving Repr, DecidableEq

/-- `ProductHTMLParser._class_matches`. -/
def classMatches (classSet : List String) (pre : String) : Bool :=
  classSet.any (fun token =>
    token = pre || strStartsWith token (pre ++ "--") || strStartsWith token (pre ++ "__"))

/-- Python `s.split()` (split on whitespace runs, dropping empty pieces). -/
def splitWs (s : String) : List String :=
  ((splitListOnPred Char.isWhitespace s.data).map String.mk).filter (fun t => t ≠ "")

/-- `ProductHTMLParser._normalize_text`. -/
def normalizeText (chunks : List String) : String :=
  let text :=
    String.intercalate " " ((chunks.filter (fun c => c ≠ "" && strTrim c ≠ "")).map strTrim)
  String.intercalate " " (splitWs text)

/-- `" ".join(part.strip() for part in parts if part.strip())`. -/
def joinStripped (parts : List String) : String :=
  String.intercalate " " ((parts.filter (fun p => strTrim p ≠ "")).map strTrim)

/-- Python `str.title()` (ASCII behaviour). -/
def pyTitle (s : String) : String :=
  String.mk (s.data.foldl (fun (acc : List Char × Bool) c =>
    if c.isAlpha then (acc.1 ++ [if acc.2 then c.toLower else c.toUpper], true)
    else (acc.1 ++ [c], false)) ([], false)).1

/-- `href.split("/")[-1].replace("-", " ").title()` — the slug fallback name of
an ingredient anchor with no visible text. -/
def slugTitle (href : String) : String :=
  pyTitle (replaceChar '-' ' ' ((strSplitOnChar '/' href).getLastD ""))

/-- `ProductHTMLParser._ingredient_key`. -/
def ingredientKey (url : String) (name : Option String) : String :=
  if url ≠ "" then lowerStr url
  else
    match name with
    | some n => if n ≠ "" then lowerStr (strTrim n) else ""
    | none => ""

/-- `attr_map.get("class", "")` followed by `.split()`: a `class` attribute
present without a value is Python `None`, and `None.split()` raises. -/
def pyClassAttr (attrs : List (String × Option String)) : Except PyErr String :=
  match attrs.reverse.find? (fun p => p.1 = "class") with
  | none => .ok ""
  | some (_, some v) => .ok v
  | some (_, none) => .error .attributeError

/-- `attr_map.get("type", "")` followed by `.lower()` on a `<script>` tag. -/
def pyTypeAttr (attrs : List (String × Option String)) : Except PyErr String :=
  match attrs.reverse.find? (fun p => p.1 = "type") with
  | none => .ok ""
  | some (_, some v) => .ok v
  | some (_, none) => .error .attributeError

/-- One function/highlight block context (the context dicts of
`handle_starttag`; highlight contexts simply leave `name` unset).  Stacks are
kept head-as-top. -/
structure FuncCtx where
  depth : Nat := 1
  name : Option String := none
  titleBuffer : List String := []
  bodyBuffer : List String := []
  items : List String := []
  itemDepth : Nat := 0
  currentItem : List String := []
  titleStack : List String := []
  links : List String := []
deriving Repr, DecidableEq

/-- One ingredient block context. -/
structure IngCtx where
  depth : Nat := 1
  key : Option String := none
  nameHint : Option String := none
  urlHint : Option String := none
  tooltipDepth : Nat := 0
  tooltipBodyParts : List String := []
  tooltipTitleParts : List String := []
  tooltipLinks : List String := []
  tooltipTitleStack : List String := []
  tooltipAnchorDepth : Nat := 0
  dataTooltipText : Option String := none
  dataTooltipLink : Option String := none
deriving Repr, DecidableEq

/-- The mutable state bag of `ProductHTMLParser`: exactly the attributes
`_reset_state` assigns (the immutable `base_url` configured at construction is
passed separately).  Defaults are the `_reset_state` values. -/
structure ParserState where
  inH1 : Bool := false
  currentText : List String := []
  jsonLdBlocks : List String := []
  inJsonLd : Bool := false
  jsonBuffer : List String := []
  meta : List (String × String) := []
  brandLinks : List String := []
  currentLinkType : Option String := none
  currentLinkHref : Option String := none
  linkTextBuffer : List String := []
  linkHrefStack : List String := []
  currentIngredientHref : Option String := none
  currentIngredientDataName : Option String := none
  ingredients : List (String × Ingredient) := []
  title : Option String := none
  detailpageDepth : Nat := 0
  descriptionDepth : Nat := 0
  descriptionBuffer : List String := []
  detailDescription : Option String := none
  materialsDepth : Nat := 0
  currentMaterialItemDepth : Nat := 0
  currentMaterialText : List String := []
  materialEntries : List String := []
  functionContextStack : List FuncCtx := []
  functionEntries : List BlockEntry := []
  highlightContextStack : List FuncCtx := []
  highlightEntries : List BlockEntry := []
  ingredientContextStack : List IngCtx := []
deriving Repr

/-- Apply `f` to the top of a stack (`stack[-1]`), if any. -/
def modifyTop {α : Type} (stack : List α) (f : α → α) : List α :=
  match stack with
  | [] => []
  | c :: rest => f c :: rest

/-- The tooltip-related part of `handle_starttag` (lines 334-370), which only
touches the innermost ingredient context. -/
def tooltipStart (base tag : String) (attrs : List (String × Option String))
    (classList : List String) (ci0 : IngCtx) : IngCtx := Id.run do
  let mut ci := ci0
  let tooltipMatch := classMatches classList "tooltip" || classMatches classList "ingredient-tooltip"
      || strTruthy (attrGet attrs "data-tooltip")
  if tooltipMatch then
    if ci.tooltipDepth = 0 then
      ci := { ci with tooltipDepth := 1, tooltipBodyParts := [], tooltipLinks := [] }
      let titleAttr := pyOrS (attrGet attrs "data-title")
        (pyOrS (attrGet attrs "title") (attrGet attrs "data-tooltip-title"))
      if strTruthy titleAttr then
        ci := { ci with tooltipTitleParts := ci.tooltipTitleParts ++ [titleAttr.getD ""] }
    else
      ci := { ci with tooltipDepth := ci.tooltipDepth + 1 }
  else if ci.tooltipDepth > 0 then
    ci := { ci with tooltipDepth := ci.tooltipDepth + 1 }
  if ci.tooltipDepth > 0 &&
      (classMatches classList "tooltip__title" || attrGet attrs "data-role" = some "title"
        || tag ∈ ["strong", "b", "h1", "h2", "h3", "h4", "h5", "h6"]) then
    ci := { ci with tooltipTitleStack := tag :: ci.tooltipTitleStack }
  if ci.tooltipDepth > 0 && tag = "a" then
    let href := (attrGet attrs "href").getD ""
    if href ≠ "" then
      ci := { ci with tooltipLinks := ci.tooltipLinks ++ [absolutize base href] }
    ci := { ci with tooltipAnchorDepth := ci.tooltipAnchorDepth + 1 }
  return ci

/-- The pure body of `ProductHTMLParser.handle_starttag` (lines 219-413),
after the two fallible attribute reads (`classTokens` from
`attr_map.get("class", "")`, `tv` from `attr_map.get("type", "")` on script
tags) have succeeded. -/
def handleStarttagCore (base : String) (st0 : ParserState) (tag : String)
    (attrs : List (String × Option String)) (classTokens tv : String) :
    ParserState := Id.run do
  let mut st := st0
  let classList := ((splitWs classTokens).filter (fun t => t ≠ "" && strTrim t ≠ "")).map strTrim
  let isDetailpageRoot := classMatches classList "detailpage"
      || classList.any (fun token => token ≠ "" && strEndsWith token "detailpage")
  if tag = "script" then
    if lowerStr tv = "application/ld+json" then
      st := { st with inJsonLd := true, jsonBuffer := [] }
  else if tag = "meta" then
    let key := lowerStr (strTrim ((pyOrS (attrGet attrs "property") (attrGet attrs "name")).getD ""))
    let content := attrGet attrs "content"
    if key ≠ "" && strTruthy content then
      st := { st with meta := dictSet st.meta key (strTrim (content.getD "")) }
  else if tag = "h1" then
    st := { st with inH1 := true, currentText := [] }
  if isDetailpageRoot then
    if st.detailpageDepth = 0 then
      st := { st with detailpageDepth := 1 }
    else
      st := { st with detailpageDepth := st.detailpageDepth + 1 }
  else if st.detailpageDepth > 0 then
    st := { st with detailpageDepth := st.detailpageDepth + 1 }
  let insideDetailpage := st.detailpageDepth > 0
  if insideDetailpage && classMatches classList "detailpage__description" then
    if st.descriptionDepth = 0 then
      st := { st with descriptionDepth := 1, descriptionBuffer := [] }
    else
      st := { st with descriptionDepth := st.descriptionDepth + 1 }
  else if st.descriptionDepth > 0 then
    st := { st with descriptionDepth := st.descriptionDepth + 1 }
  if insideDetailpage && classMatches classList "detailpage__materials" then
    if st.materialsDepth = 0 then
      st := { st with materialsDepth := 1 }
    else
      st := { st with materialsDepth := st.materialsDepth + 1 }
  else if st.materialsDepth > 0 then
    st := { st with materialsDepth := st.materialsDepth + 1 }
  if st.materialsDepth > 0 && tag = "li" then
    if st.currentMaterialItemDepth = 0 then
      st := { st with currentMaterialText := [] }
    st := { st with currentMaterialItemDepth := st.currentMaterialItemDepth + 1 }
  if insideDetailpage &&
      (classMatches classList "detailpage__function" || strTruthy (attrGet attrs "data-function")) then
    let fc : FuncCtx := { name := stripOrNone (attrGet attrs "data-function") }
    st := { st with functionContextStack := fc :: st.functionContextStack }
  else if st.functionContextStack ≠ [] then
    st := { st with functionContextStack := modifyTop st.functionContextStack (fun c => { c with depth := c.depth + 1 }) }
  if insideDetailpage &&
      (classMatches classList "detailpage__highlight" || classList.contains "highlight") then
    let hc : FuncCtx := {}
    st := { st with highlightContextStack := hc :: st.highlightContextStack }
  else if st.highlightContextStack ≠ [] then
    st := { st with highlightContextStack := modifyTop st.highlightContextStack (fun c => { c with depth := c.depth + 1 }) }
  if insideDetailpage && classMatches classList "detailpage__ingredient" then
    let urlHint0 := (attrGet attrs "data-ingredient-url").getD ""
    let urlHint := if urlHint0 ≠ "" then absolutize base urlHint0 else urlHint0
    let nameHint := stripOrNone (pyOrS (attrGet attrs "data-name") (attrGet attrs "data-ingredient-name"))
    let key := ingredientKey urlHint nameHint
    let mut ic : IngCtx := {
      key := if key = "" then none else some key,
      nameHint := nameHint,
      urlHint := if urlHint = "" then none else some urlHint,
      dataTooltipText := attrGet attrs "data-tooltip-text",
      dataTooltipLink := attrGet attrs "data-tooltip-link" }
    let tooltipTitleAttr := pyOrS (attrGet attrs "data-tooltip-title") (attrGet attrs "data-title")
    if strTruthy tooltipTitleAttr then
      ic := { ic with tooltipTitleParts := ic.tooltipTitleParts ++ [tooltipTitleAttr.getD ""] }
    st := { st with ingredientContextStack := ic :: st.ingredientContextStack }
  else if st.ingredientContextStack ≠ [] then
    st := { st with ingredientContextStack := modifyTop st.ingredientContextStack (fun c => { c with depth := c.depth + 1 }) }
  if st.ingredientContextStack ≠ [] then
    st := { st with ingredientContextStack := modifyTop st.ingredientContextStack (tooltipStart base tag attrs classList) }
  if st.functionContextStack ≠ [] && tag ∈ ["h1", "h2", "h3", "h4", "h5", "h6"] then
    st := { st with functionContextStack := modifyTop st.functionContextStack (fun c => { c with titleStack := tag :: c.titleStack }) }
  if st.highlightContextStack ≠ [] && tag ∈ ["h1", "h2", "h3", "h4", "h5", "h6", "strong"] then
    st := { st with highlightContextStack := modifyTop st.highlightContextStack (fun c => { c with titleStack := tag :: c.titleStack }) }
  if st.functionContextStack ≠ [] && tag = "li" then
    st := { st with functionContextStack := modifyTop st.functionContextStack (fun c =>
      let c := { c with itemDepth := c.itemDepth + 1 }
      if c.itemDepth = 1 then { c with currentItem := [] } else c) }
  if st.highlightContextStack ≠ [] && tag = "li" then
    st := { st with highlightContextStack := modifyTop st.highlightContextStack (fun c =>
      let c := { c with itemDepth := c.itemDepth + 1 }
      if c.itemDepth = 1 then { c with currentItem := [] } else c) }
  if tag = "a" then
    let href := (attrGet attrs "href").getD ""
    st := { st with linkHrefStack := href :: st.linkHrefStack }
    if strStartsWith href "/ingredients/" then
      let dataName := pyOrS (attrGet attrs "data-name") (attrGet attrs "title")
      st := { st with
        currentLinkType := some "ingredient", currentLinkHref := some href,
        linkTextBuffer := [], currentIngredientHref := some href,
        currentIngredientDataName := dataName }
      if strTruthy dataName then
        let fullUrl := absolutize base href
        let key := ingredientKey fullUrl dataName
        st := { st with ingredients := dictSet st.ingredients key ⟨strTrim (dataName.getD ""), fullUrl, []⟩ }
    else if strStartsWith href "/brand" || strStartsWith href "/brands/" then
      let fullUrl := absolutize base href
      st := { st with
        brandLinks := setAdd st.brandLinks fullUrl,
        currentLinkType := some "brand", currentLinkHref := some href, linkTextBuffer := [] }
    else
      st := { st with currentLinkType := none, currentLinkHref := none, linkTextBuffer := [] }
  return st

/-- `ProductHTMLParser.handle_starttag`: the only statements that can raise
are `attr_map.get("class", "").split()` (for every tag) and
`attr_map.get("type", "").lower()` (for `<script>` tags), when the attribute
is present without a value (Python `None`). -/
def handleStarttag (base : String) (st0 : ParserState) (tag : String)
    (attrs : List (String × Option String)) : Except PyErr ParserState :=
  match pyClassAttr attrs with
  | .error e => .error e
  | .ok classTokens =>
    match (if tag = "script" then pyTypeAttr attrs else .ok "") with
    | .error e => .error e
    | .ok tv => .ok (handleStarttagCore base st0 tag attrs classTokens tv)

/-- Build a finished function entry (lines 500-513). -/
def buildFunctionEntry (c : FuncCtx) (title body : String) : BlockEntry :=
  let nm := pyOrS c.name (some title)
  { name := if strTruthy nm then nm else none,
    title := none,
    items := c.items,
    text := if body ≠ "" then some body else none,
    links := if c.links ≠ [] then sortStrings (dedupKeepFirst (c.links.filter (fun l => l ≠ ""))) else [] }

/-- Build a finished highlight entry (lines 528-539). -/
def buildHighlightEntry (c : FuncCtx) (title body : String) : BlockEntry :=
  { name := none,
    title := if title ≠ "" then some title else none,
    items := c.items,
    text := if body ≠ "" then some body else none,
    links := if c.links ≠ [] then sortStrings (dedupKeepFirst (c.links.filter (fun l => l ≠ ""))) else [] }

/-- The function-context part of `handle_endtag` (lines 488-515), acting on
the innermost context. -/
def funcClose (tag : String) (stack : List FuncCtx) (entries : List BlockEntry) :
    List FuncCtx × List BlockEntry := Id.run do
  match stack with
  | [] => return ([], entries)
  | c0 :: rest =>
    let mut c := c0
    let mut entries := entries
    if tag = "li" && c.itemDepth > 0 then
      c := { c with itemDepth := c.itemDepth - 1 }
      if c.itemDepth = 0 then
        let t := normalizeText c.currentItem
        if t ≠ "" then
          c := { c with items := c.items ++ [t] }
        c := { c with currentItem := [] }
    match c.titleStack with
    | t :: ts =>
      if t = tag then
        c := { c with titleStack := ts }
    | [] => pure ()
    c := { c with depth := c.depth - 1 }
    if c.depth = 0 then
      let entry := buildFunctionEntry c (normalizeText c.titleBuffer) (normalizeText c.bodyBuffer)
      if ¬ entry.isEmpty then
        entries := entries ++ [entry]
      return (rest, entries)
    else
      return (c :: rest, entries)

/-- The highlight-context part of `handle_endtag` (lines 516-542). -/
def highlightClose (tag : String) (stack : List FuncCtx) (entries : List BlockEntry) :
    List FuncCtx × List BlockEntry := Id.run do
  match stack with
  | [] => return ([], entries)
  | c0 :: rest =>
    let mut c := c0
    let mut entries := entries
    if tag = "li" && c.itemDepth > 0 then
      c := { c with itemDepth := c.itemDepth - 1 }
      if c.itemDepth = 0 then
        let t := normalizeText c.currentItem
        if t ≠ "" then
          c := { c with items := c.items ++ [t] }
        c := { c with currentItem := [] }
    match c.titleStack with
    | t :: ts =>
      if t = tag then
        c := { c with titleStack := ts }
    | [] => pure ()
    c := { c with depth := c.depth - 1 }
    if c.depth = 0 then
      let entry := buildHighlightEntry c (normalizeText c.titleBuffer) (normalizeText c.bodyBuffer)
      if ¬ entry.isEmpty then
        entries := entries ++ [entry]
      return (rest, entries)
    else
      return (c :: rest, entries)

/-- `ProductHTMLParser._register_ingredient_extra` (lines 804-837). -/
def registerIngredientExtra (ings : List (String × Ingredient)) (key : Option String)
    (extra : ExtraMap) (nameHint urlHint : Option String) : List (String × Ingredient) :=
  if extra = [] then ings
  else
    let sanitized := extra.filter (fun p => !extraValBlank p.2)
    if sanitized = [] then ings
    else
      let targetKey :=
        match key with
        | some k => if k ≠ "" then k else ingredientKey (urlHint.getD "") nameHint
        | none => ingredientKey (urlHint.getD "") nameHint
      if targetKey = "" then ings
      else
        Id.run do
        match dictGet ings targetKey with
        | none => return dictSet ings targetKey ⟨nameHint.getD "", urlHint.getD "", sanitized⟩
        | some ing0 =>
          let mut ing := ing0
          if strTruthy nameHint && ing.name = "" then
            ing := { ing with name := nameHint.getD "" }
          if strTruthy urlHint && ing.url = "" then
            ing := { ing with url := urlHint.getD "" }
          ing := { ing with extra := dictUpdate ing.extra sanitized }
          return dictSet ings targetKey ing

/-- `extra.setdefault("tooltip_links", []).append(absolute)`. -/
def extraAppendLink (extra : ExtraMap) (k : String) (link : String) : ExtraMap :=
  match dictGet extra k with
  | some (.ls l) => dictSet extra k (.ls (l ++ [link]))
  | some (.s v) => dictSet extra k (.s v)
  | some .null => dictSet extra k .null
  | none => dictSet extra k (.ls [link])

/-- The ingredient-context part of `handle_endtag` (lines 543-597). -/
def ingClose (base tag : String) (stack : List IngCtx) (ingredients : List (String × Ingredient)) :
    List IngCtx × List (String × Ingredient) := Id.run do
  match stack with
  | [] => return ([], ingredients)
  | c0 :: rest =>
    let mut c := c0
    let mut ings := ingredients
    if c.tooltipDepth > 0 then
      if tag = "a" && c.tooltipAnchorDepth > 0 then
        c := { c with tooltipAnchorDepth := c.tooltipAnchorDepth - 1 }
      match c.tooltipTitleStack with
      | t :: ts =>
        if t = tag then
          c := { c with tooltipTitleStack := ts }
      | [] => pure ()
      c := { c with tooltipDepth := c.tooltipDepth - 1 }
      if c.tooltipDepth = 0 then
        let title := normalizeText c.tooltipTitleParts
        let body := normalizeText c.tooltipBodyParts
        let mut links := sortStrings (dedupKeepFirst (c.tooltipLinks.filter (fun l => l ≠ "")))
        let mut extra : ExtraMap := []
        if title ≠ "" then
          extra := dictSet extra "tooltip_title" (.s title)
        if body ≠ "" then
          extra := dictSet extra "tooltip_text" (.s body)
        if strTruthy c.dataTooltipText then
          extra := dictSetdefault extra "tooltip_text" (.s (strTrim (c.dataTooltipText.getD "")))
        if strTruthy c.dataTooltipLink then
          links := links ++ [absolutize base (c.dataTooltipLink.getD "")]
        if links ≠ [] then
          extra := dictSet extra "tooltip_links" (.ls (sortStrings (dedupKeepFirst (links.filter (fun l => l ≠ "")))))
        ings := registerIngredientExtra ings c.key extra c.nameHint c.urlHint
        c := { c with
          tooltipBodyParts := [], tooltipTitleParts := [], tooltipLinks := [],
          tooltipAnchorDepth := 0 }
    c := { c with depth := c.depth - 1 }
    if c.depth = 0 then
      let mut extra : ExtraMap := []
      if strTruthy c.dataTooltipText then
        extra := dictSet extra "tooltip_text" (.s (strTrim (c.dataTooltipText.getD "")))
      if strTruthy c.dataTooltipLink then
        extra := extraAppendLink extra "tooltip_links" (absolutize base (c.dataTooltipLink.getD ""))
      ings := registerIngredientExtra ings c.key extra c.nameHint c.urlHint
      return (rest, ings)
    else
      return (c :: rest, ings)

/-- `ProductHTMLParser.handle_endtag` (lines 415-601). -/
def handleEndtag (base : String) (st0 : ParserState) (tag : String) : ParserState := Id.run do
  let mut st := st0
  if tag = "script" && st.inJsonLd then
    st := { st with inJsonLd := false }
    let block := strTrim (String.join st.jsonBuffer)
    if block ≠ "" then
      st := { st with jsonLdBlocks := st.jsonLdBlocks ++ [block] }
  else if tag = "h1" && st.inH1 then
    st := { st with inH1 := false }
    let t := joinStripped st.currentText
    if t ≠ "" then
      st := { st with title := some t }
  else if tag = "a" then
    let text := joinStripped st.linkTextBuffer
    let mut hrefRaw : Option String := none
    match st.linkHrefStack with
    | h :: rest =>
      hrefRaw := some h
      st := { st with linkHrefStack := rest }
    | [] =>
      if strTruthy st.currentLinkHref then
        hrefRaw := st.currentLinkHref
    let absoluteHref : Option String :=
      match hrefRaw with
      | some h => if h ≠ "" then some (absolutize base h) else none
      | none => none
    if st.currentLinkType = some "ingredient" && strTruthy st.currentLinkHref then
      let clh := st.currentLinkHref.getD ""
      let fullUrl := absolutize base clh
      let key := ingredientKey fullUrl (some text)
      match dictGet st.ingredients key with
      | none =>
        let nm := if text ≠ "" then text else slugTitle clh
        st := { st with ingredients := dictSet st.ingredients key ⟨nm, fullUrl, []⟩ }
      | some ing =>
        if text ≠ "" then
          st := { st with ingredients := dictSet st.ingredients key { ing with name := text } }
      if st.ingredientContextStack ≠ [] then
        st := { st with ingredientContextStack := modifyTop st.ingredientContextStack (fun cur0 => Id.run do
          let mut cur := cur0
          if ¬ strTruthy cur.key then
            cur := { cur with key := some key }
          if text ≠ "" && ¬ strTruthy cur.nameHint then
            cur := { cur with nameHint := some text }
          if fullUrl ≠ "" && ¬ strTruthy cur.urlHint then
            cur := { cur with urlHint := some fullUrl }
          return cur) }
    else if st.currentLinkType = some "brand" && text ≠ "" && strTruthy st.currentLinkHref then
      let fullUrl := absolutize base (st.currentLinkHref.getD "")
      st := { st with
        brandLinks := setAdd st.brandLinks fullUrl,
        meta := dictSetdefault st.meta "brand:text" text }
    if strTruthy absoluteHref && st.functionContextStack ≠ [] then
      st := { st with functionContextStack := modifyTop st.functionContextStack (fun c => { c with links := c.links ++ [absoluteHref.getD ""] }) }
    if strTruthy absoluteHref && st.highlightContextStack ≠ [] then
      st := { st with highlightContextStack := modifyTop st.highlightContextStack (fun c => { c with links := c.links ++ [absoluteHref.getD ""] }) }
    st := { st with
      currentLinkType := none, currentLinkHref := none, linkTextBuffer := [],
      currentIngredientHref := none, currentIngredientDataName := none }
  if st.materialsDepth > 0 then
    if tag = "li" && st.currentMaterialItemDepth > 0 then
      st := { st with currentMaterialItemDepth := st.currentMaterialItemDepth - 1 }
      if st.currentMaterialItemDepth = 0 then
        let t := normalizeText st.currentMaterialText
        if t ≠ "" then
          st := { st with materialEntries := st.materialEntries ++ [t] }
        st := { st with currentMaterialText := [] }
    st := { st with materialsDepth := st.materialsDepth - 1 }
  if st.descriptionDepth > 0 then
    st := { st with descriptionDepth := st.descriptionDepth - 1 }
    if st.descriptionDepth = 0 then
      let t := normalizeText st.descriptionBuffer
      if t ≠ "" then
        st := { st with detailDescription := some t }
      st := { st with descriptionBuffer := [] }
  if st.functionContextStack ≠ [] then
    let r := funcClose tag st.functionContextStack st.functionEntries
    st := { st with functionContextStack := r.1, functionEntries := r.2 }
  if st.highlightContextStack ≠ [] then
    let r := highlightClose tag st.highlightContextStack st.highlightEntries
    st := { st with highlightContextStack := r.1, highlightEntries := r.2 }
  if st.ingredientContextStack ≠ [] then
    let r := ingClose base tag st.ingredientContextStack st.ingredients
    st := { st with ingredientContextStack := r.1, ingredients := r.2 }
  if st.detailpageDepth > 0 then
    st := { st with detailpageDepth := st.detailpageDepth - 1 }
  return st

/-- `ProductHTMLParser.handle_data` (lines 603-638). -/
def handleData (st0 : ParserState) (dataStr : String) : ParserState := Id.run do
  let mut st := st0
  if st.inJsonLd then
    st := { st with jsonBuffer := st.jsonBuffer ++ [dataStr] }
  if st.inH1 then
    st := { st with currentText := st.currentText ++ [dataStr] }
  if strTruthy st.currentLinkType then
    st := { st with linkTextBuffer := st.linkTextBuffer ++ [dataStr] }
  if st.descriptionDepth > 0 then
    st := { st with descriptionBuffer := st.descriptionBuffer ++ [dataStr] }
  if st.currentMaterialItemDepth > 0 then
    st := { st with currentMaterialText := st.currentMaterialText ++ [dataStr] }
  if st.functionContextStack ≠ [] then
    st := { st with functionContextStack := modifyTop st.functionContextStack (fun c =>
      if c.titleStack ≠ [] then { c with titleBuffer := c.titleBuffer ++ [dataStr] }
      else if c.itemDepth > 0 then { c with currentItem := c.currentItem ++ [dataStr] }
      else { c with bodyBuffer := c.bodyBuffer ++ [dataStr] }) }
  if st.highlightContextStack ≠ [] then
    st := { st with highlightContextStack := modifyTop st.highlightContextStack (fun c =>
      if c.titleStack ≠ [] then { c with titleBuffer := c.titleBuffer ++ [dataStr] }
      else if c.itemDepth > 0 then { c with currentItem := c.currentItem ++ [dataStr] }
      else { c with bodyBuffer := c.bodyBuffer ++ [dataStr] }) }
  if st.ingredientContextStack ≠ [] then
    st := { st with ingredientContextStack := modifyTop st.ingredientContextStack (fun c =>
      if c.tooltipDepth > 0 && c.tooltipAnchorDepth = 0 then
        if c.tooltipTitleStack ≠ [] then { c with tooltipTitleParts := c.tooltipTitleParts ++ [dataStr] }
        else { c with tooltipBodyParts := c.tooltipBodyParts ++ [dataStr] }
      else c) }
  return st

/-! ### Post-stream reconciliation and the dedup fold -/

/-- Project an optional JSON value to the string the Python code would hold.
The embedding restricts the linked-data scalar fields (name, brand,
description, image) to JSON strings, the only shape this site's markup
carries; a non-string value contributes nothing here. -/
def jstr : Option Json → Option String
  | some (.str s) => some s
  | _ => none

/-- `ProductHTMLParser._first_of`. -/
def firstOf : Option Json → Option Json
  | some (.arr l) => l.head?
  | some j => some j
  | none => none

mutual
/-- Python `str()` of a decoded JSON value (`category` entries).  The exact
repr text of nested containers is irrelevant to every claim and is rendered in
JSON-like syntax. -/
def jsonToPyStr : Json → String
  | .str s => s
  | .num v => toString v
  | .bool b => if b then "True" else "False"
  | .null => "None"
  | .arr xs => "[" ++ String.intercalate ", " (jsonToPyStrArr xs) ++ "]"
  | .obj fs => "\x7b" ++ String.intercalate ", " (jsonToPyStrFields fs) ++ "\x7d"

def jsonToPyStrArr : List Json → List String
  | [] => []
  | x :: xs => jsonToPyStr x :: jsonToPyStrArr xs

def jsonToPyStrFields : List (String × Json) → List String
  | [] => []
  | (k, v) :: fs => (k ++ ": " ++ jsonToPyStr v) :: jsonToPyStrFields fs
end

/-- `_ingredient_key(url_value, name)` when `name` is a decoded JSON value:
a truthy non-string name (only reachable from linked data) hits
`name.strip()` and raises. -/
def ingredientKeyJson (urlValue : String) (nameJ : Json) : Except PyErr String :=
  if urlValue ≠ "" then .ok (lowerStr urlValue)
  else
    match nameJ with
    | .str s => .ok (if s ≠ "" then lowerStr (strTrim s) else "")
    | _ => .error .attributeError

/-- The stored `Ingredient.name` for a linked-data ingredient node.  Python
stores a truthy non-string name object and only raises later, at the dedup
loop's `ingredient.name.lower()`, within the same `parse` call; the embedding
raises at the store, which is observationally identical at `parse` level. -/
def ingredientNameJson : Json → Except PyErr String
  | .str s => .ok s
  | _ => .error .attributeError

/-- The external-collaborator bundle: `json.loads` (returning `none` on a
`JSONDecodeError`), and `float()` / `int()` applied to a decoded JSON scalar
(returning `none` where Python would raise `TypeError`/`ValueError`, which the
code catches). -/
structure Env where
  jdec : String → Option Json
  pyFloat : Json → Option Rat := fun _ => none
  pyInt : Json → Option Int := fun _ => none

/-- The description-precedence logic of `parse` (line 666 and lines 720-727):
`ldDesc` is the value taken from the linked-data node, `detail` the
detail-page region capture, then the `og:description` / `description` metas. -/
def descriptionChoice (ldDesc detail og metaDesc : Option String) : Option String :=
  if ¬ strTruthy ldDesc then pyOrS detail (pyOrS og metaDesc)
  else if strTruthy detail then detail
  else ldDesc

/-- The blank ingredient used as positional-access default in the dedup
fold (the index is always in range). -/
def dIng : Ingredient := ⟨"", "", []⟩

/-- The running state of the dedup fold (lines 733-735). -/
structure DedupState where
  out : List Ingredient := []
  byUrl : List (String × Nat) := []
  byName : List (String × Nat) := []
deriving Repr, DecidableEq

/-- Folding one further mention into an already-emitted merged entry
(lines 753-759): blank name/url are filled, non-`None` extra values are
merged in. -/
def mergeInto (m g : Ingredient) : Ingredient :=
  let m1 := if g.name ≠ "" && m.name = "" then { m with name := g.name } else m
  let m2 := if g.url ≠ "" && m1.url = "" then { m1 with url := g.url } else m1
  if g.extra ≠ [] then
    { m2 with extra := dictUpdate m2.extra (g.extra.filter (fun p => p.2 ≠ ExtraVal.null)) }
  else m2

/-- The `if url_key and ... elif name_key and ...` target lookup
(lines 739-743). -/
def dedupTarget (s : DedupState) (urlKey nameKey : Option String) : Option Nat :=
  match urlKey with
  | some k =>
    match dictGet s.byUrl k with
    | some i => some i
    | none =>
      match nameKey with
      | some k2 => dictGet s.byName k2
      | none => none
  | none =>
    match nameKey with
    | some k2 => dictGet s.byName k2
    | none => none

/-- `if key is not None and key not in index: index[key] = target_index`
(lines 760-763). -/
def registerKey (idx : List (String × Nat)) (k : Option String) (i : Nat) :
    List (String × Nat) :=
  match k with
  | none => idx
  | some k => if dictGet idx k = none then idx ++ [(k, i)] else idx

/-- One iteration of the dedup loop (lines 736-763). -/
def dedupStep (s : DedupState) (g : Ingredient) : DedupState :=
  let urlKey : Option String := if g.url ≠ "" then some (lowerStr g.url) else none
  let nameKey : Option String := if g.name ≠ "" then some (lowerStr g.name) else none
  match dedupTarget s urlKey nameKey with
  | none =>
    let tIdx := s.out.length
    { out := s.out ++ [⟨g.name, g.url, g.extra⟩],
      byUrl := registerKey s.byUrl urlKey tIdx,
      byName := registerKey s.byName nameKey tIdx }
  | some i =>
    { out := s.out.set i (mergeInto (s.out.getD i dIng) g),
      byUrl := registerKey s.byUrl urlKey i,
      byName := registerKey s.byName nameKey i }

/-- The whole dedup pass over `self.ingredients.values()` (lines 733-764). -/
def dedupeIngredients (l : List Ingredient) : List Ingredient :=
  (l.foldl dedupStep {}).out

/-- One item of the linked-data ingredient list (lines 685-703). -/
def seedItem (base : String) (ings : List (String × Ingredient)) (item : Json) :
    Except PyErr (List (String × Ingredient)) :=
  match item with
  | .obj _ =>
    let nameJ := pyOrJ (jget item "name") (pyOrJ (jget item "@id") (jget item "identifier"))
    if jTruthyOpt nameJ then
      let urlJ := pyOrJ (jget item "@id") (jget item "url")
      let urlValue :=
        match urlJ with
        | some (.str s) => absolutize base s
        | _ => ""
      match ingredientKeyJson urlValue (nameJ.getD .null) with
      | .error e => .error e
      | .ok key =>
        match dictGet ings key with
        | none =>
          match ingredientNameJson (nameJ.getD .null) with
          | .error e => .error e
          | .ok nm => .ok (dictSet ings key ⟨nm, urlValue, []⟩)
        | some ing =>
          if ing.url = "" && urlValue ≠ "" then
            .ok (dictSet ings key { ing with url := urlValue })
          else .ok ings
    else .ok ings
  | .str s =>
    let key := ingredientKey "" (some s)
    .ok (dictSetdefault ings key ⟨s, "", []⟩)
  | _ => .ok ings

/-- One comma-separated token of a string-valued ingredient field
(lines 704-709). -/
def seedToken (ings : List (String × Ingredient)) (token0 : String) :
    List (String × Ingredient) :=
  let token := strTrim token0
  if token ≠ "" then dictSetdefault ings (ingredientKey "" (some token)) ⟨token, "", []⟩
  else ings

/-- The linked-data ingredient seeding of `parse` (lines 683-709). -/
def seedJsonLdIngredients (base : String) (jd : Json)
    (ings0 : List (String × Ingredient)) : Except PyErr (List (String × Ingredient)) :=
  let ingredientData := pyOrJ (jget jd "hasIngredient") (pyOrJ (jget jd "ingredient") (jget jd "ingredients"))
  match ingredientData with
  | some (.arr items) => items.foldlM (seedItem base) ings0
  | some (.str s) => .ok ((strSplitOnChar ',' s).foldl seedToken ings0)
  | _ => .ok ings0

/-- The scalar-field part of the post-stream reconciliation of `parse`
(lines 644-682 and 710-732): everything except the linked-data ingredient
seeding and the final dedup pass. -/
def reconcileScalar (env : Env) (st : ParserState) (url : String)
    (jsonLdData : Option Json) : Product := Id.run do
  let mut p : Product := { url := url }
  p := { p with rawBrandLinks := sortStrings st.brandLinks }
  p := { p with jsonLd := jsonLdData }
  match jsonLdData with
  | some jd =>
    p := { p with name := pyOrS (jstr (jget jd "name")) p.name }
    match jget jd "brand" with
    | some (.obj bfs) =>
      let bi := Json.obj bfs
      p := { p with brand := pyOrS (jstr (jget bi "name")) (pyOrS (jstr (jget bi "brand")) p.brand) }
    | some (.str s) =>
      p := { p with brand := some s }
    | _ => pure ()
    p := { p with description := pyOrS (jstr (jget jd "description")) p.description }
    p := { p with imageUrl := pyOrS (jstr (firstOf (jget jd "image"))) p.imageUrl }
    match jget jd "aggregateRating" with
    | some (.obj afs) =>
      let agg := Json.obj afs
      let rv : Option Rat :=
        match jget agg "ratingValue" with
        | none => none
        | some .null => none
        | some v => env.pyFloat v
      p := { p with ratingValue := rv }
      let rc : Option Int :=
        match jget agg "ratingCount" with
        | none => none
        | some .null => none
        | some v => env.pyInt v
      p := { p with ratingCount := rc }
    | _ => pure ()
    match jget jd "category" with
    | some (.arr items) =>
      p := { p with categories := items.map jsonToPyStr }
    | some (.str s) =>
      p := { p with categories := [s] }
    | _ => pure ()
  | none => pure ()
  if ¬ strTruthy p.name then
    p := { p with name := pyOrS st.title (pyOrS (dictGet st.meta "og:title") (dictGet st.meta "twitter:title")) }
  if ¬ strTruthy p.brand then
    match dictGet st.meta "brand:text" with
    | some t =>
      p := { p with brand := some t }
    | none =>
      match p.rawBrandLinks with
      | link :: _ =>
        p := { p with brand := some (pyTitle (replaceChar '-' ' ' ((strSplitOnChar '/' (rstripSlash link)).getLastD ""))) }
      | [] => pure ()
  p := { p with description := descriptionChoice p.description st.detailDescription (dictGet st.meta "og:description") (dictGet st.meta "description") }
  p := { p with materials := st.materialEntries }
  p := { p with functions := st.functionEntries }
  p := { p with highlights := st.highlightEntries }
  if ¬ strTruthy p.imageUrl then
    p := { p with imageUrl := pyOrS (dictGet st.meta "og:image") (dictGet st.meta "twitter:image") }
  return p

/-- The post-stream reconciliation of `parse` (lines 644-765).  The linked-data
ingredient seeding (the only fallible part) updates the ingredients dict; the
scalar fields are computed by `reconcileScalar`; the final `ingredients` list
is the dedup pass over the dict's values. -/
def reconcile (env : Env) (base : String) (st : ParserState) (url : String) :
    Except PyErr Product :=
  let jsonLdData := findJsonLd env.jdec st.jsonLdBlocks
  let seeded : Except PyErr (List (String × Ingredient)) :=
    match jsonLdData with
    | some jd => seedJsonLdIngredients base jd st.ingredients
    | none => .ok st.ingredients
  match seeded with
  | .error e => .error e
  | .ok ings =>
    .ok { reconcileScalar env st url jsonLdData with
          ingredients := dedupeIngredients (ings.map (fun kv => kv.2)) }

/-- Dispatch one `html.parser` callback. -/
def stepEvent (base : String) (st : ParserState) : HtmlEvent → Except PyErr ParserState
  | .start tag attrs => handleStarttag base st tag attrs
  | .stop tag => .ok (handleEndtag base st tag)
  | .text s => .ok (handleData st s)

/-- Feed a whole event stream from the blank state. -/
def runEvents (base : String) (events : List HtmlEvent) : Except PyErr ParserState :=
  events.foldlM (fun st e => stepEvent base st e) ({} : ParserState)

/-- `ProductHTMLParser.parse` (lines 640-765), at the level of one call's
`html.parser` callback stream.  `_reset_state` (lines 189-217) reassigns
every field of `ParserState` — the subclass state — at entry, so that state
left by an earlier call is irrelevant and the run starts blank (`_prior` is
accordingly unused).  The inherited tokenizer (`rawdata`/`cdata_elem` of
CPython's `html.parser`) sits outside this event-level model: `_reset_state`
never calls `HTMLParser.reset()`, so on a reused instance whose previous
markup ended inside an unclosed `<script>`/`<style>` the tokenizer still
holds `cdata_elem` (even through `close()`, whose epilogue is guarded by
`not self.cdata_elem`) and the next call's markup yields no callbacks.
Cross-call behaviour on one instance is therefore NOT captured here; every
theorem below uses this definition for single-call properties only. -/
def parseHtml (env : Env) (base : String) (_prior : ParserState)
    (events : List HtmlEvent) (url : String) : Except PyErr Product :=
  match runEvents base events with
  | .error e => .error e
  | .ok st => reconcile env base st url

/-! ### Discovery (`IncidecoderScraper`) -/

/-- `HttpClient.build_url`. -/
def buildUrl (base : String) (pathOrUrl : String) : String :=
  absolutize base pathOrUrl

/-- A discovery-time page fetch: `none` models a raised fetch exception
(logged, the page skipped), `some events` the fetched page's event stream. -/
abbrev FetchPage := String → Option (List HtmlEvent)

/-- `IncidecoderScraper._discover_products_for_brand` (lines 931-953): a
breadth-first crawl over one brand's paginated listing.  The Python `while`
loop has no intrinsic bound, so the recursion carries explicit fuel; every
theorem works with runs the fuel does not truncate. -/
def discoverProductsForBrand (fetch : FetchPage) (base : String) :
    Nat → List String → List String → List String
  | 0, _, _ => []
  | fuel + 1, queue, seenPages =>
    match queue with
    | [] => []
    | current :: rest =>
      if current ∈ seenPages then
        discoverProductsForBrand fetch base fuel rest seenPages
      else
        let seenPages := seenPages ++ [current]
        match fetch current with
        | none => discoverProductsForBrand fetch base fuel rest seenPages
        | some events =>
          let yielded := (lcFeed ["/products/"] events).map (buildUrl base)
          let pagLinks := lcFeed ["?page="] events
          let newPages := (pagLinks.map (fun l => joinQuery current l)).filter
            (fun a => a ∉ seenPages)
          yielded ++ discoverProductsForBrand fetch base fuel (rest ++ newPages) seenPages

/-- `string.ascii_lowercase` letter buckets plus the two special tokens. -/
def letterTokens : List String :=
  (List.range 26).map (fun i => String.mk [Char.ofNat ('a'.toNat + i)]) ++ ["0-9", "other"]

/-- The brand-index page path: `urlencode({"letter": token})`, plus
`page` for pages past the first (lines 910-914). -/
def brandIndexPath (token : String) (page : Nat) : String :=
  if page > 1 then "/brands?letter=" ++ token ++ "&page=" ++ toString page
  else "/brands?letter=" ++ token

/-- The observable behaviour of a brand-index walk: every index page
requested, every product URL yielded, and the visited-brand set carried
across letter buckets. -/
structure BrandWalk where
  requested : List String := []
  yielded : List String := []
  visited : List String := []
deriving Repr, DecidableEq

/-- The per-letter page loop of `_discover_from_brands` (lines 908-929):
fetch index page, collect `/brands/`-prefixed links, drop already-visited
brands, stop as soon as the page contributes no new brand link, otherwise
visit each new brand (yielding its products) and move to the next page.
`pfuel` is the fuel of the per-brand product crawl. -/
def brandBucketWalk (fetch : FetchPage) (base token : String) (pfuel : Nat) :
    Nat → Nat → List String → BrandWalk
  | 0, _, visited => { visited := visited }
  | fuel + 1, page, visited =>
    let path := brandIndexPath token page
    match fetch path with
    | none => { requested := [path], visited := visited }
    | some events =>
      let brandLinks0 := (lcFeed ["/brands/", "/brand/"] events).map (buildUrl base)
      let brandLinks := brandLinks0.filter (fun l => l ∉ visited)
      if brandLinks = [] then { requested := [path], visited := visited }
      else
        let visited := visited ++ brandLinks
        let yielded := brandLinks.flatMap (fun b => discoverProductsForBrand fetch base pfuel [b] [])
        let sub := brandBucketWalk fetch base token pfuel fuel (page + 1) visited
        { requested := path :: sub.requested, yielded := yielded ++ sub.yielded,
          visited := sub.visited }

/-- `IncidecoderScraper._discover_from_brands` (lines 904-929): all letter
buckets in order, sharing one visited set. -/
def discoverFromBrands (fetch : FetchPage) (base : String) (fuel pfuel : Nat) : BrandWalk :=
  letterTokens.foldl (fun acc token =>
    let w := brandBucketWalk fetch base token pfuel fuel 1 acc.visited
    { requested := acc.requested ++ w.requested, yielded := acc.yielded ++ w.yielded,
      visited := w.visited }) {}

/-- Modelled from the spec: the same per-letter walk, but terminating only
after two consecutive index pages that discover zero new brand links (§4.3
"terminates after a small fixed number of consecutive pages that discover
zero new brand links", §8 Scenario C, §9 "the empty-page termination
threshold (two consecutive empty pages)").  Used solely to contrast the
specified termination rule with the code's. -/
def brandBucketWalkSpec (fetch : FetchPage) (base token : String) (pfuel : Nat) :
    Nat → Nat → Nat → List String → BrandWalk
  | 0, _, _, visited => { visited := visited }
  | fuel + 1, page, emptyRun, visited =>
    let path := brandIndexPath token page
    match fetch path with
    | none => { requested := [path], visited := visited }
    | some events =>
      let brandLinks0 := (lcFeed ["/brands/", "/brand/"] events).map (buildUrl base)
      let brandLinks := brandLinks0.filter (fun l => l ∉ visited)
      if brandLinks = [] then
        if emptyRun + 1 ≥ 2 then { requested := [path], visited := visited }
        else
          let sub := brandBucketWalkSpec fetch base token pfuel fuel (page + 1) (emptyRun + 1) visited
          { requested := path :: sub.requested, yielded := sub.yielded, visited := sub.visited }
      else
        let visited := visited ++ brandLinks
        let yielded := brandLinks.flatMap (fun b => discoverProductsForBrand fetch base pfuel [b] [])
        let sub := brandBucketWalkSpec fetch base token pfuel fuel (page + 1) 0 visited
        { requested := path :: sub.requested, yielded := yielded ++ sub.yielded,
          visited := sub.visited }

/-- The emit-if-new loop body of `discover_product_urls` (lines 859-864):
`emitted` is both the suppression set and the output sequence, since a URL is
appended exactly when it is added to the set. -/
def emitNew (emitted : List String) (urls : List String) : List String :=
  urls.foldl (fun acc url => if url ∈ acc then acc else acc ++ [url]) emitted

/-- `IncidecoderScraper.discover_product_urls` (lines 852-868), with the two
strategy iterators abstracted as the URL sequences they produce. -/
def discoverProductUrls (sitemapUrls brandUrls : List String) (strategy : String) :
    List String :=
  let strategies :=
    (if strategy = "auto" || strategy = "sitemap" then [sitemapUrls] else []) ++
    (if strategy = "auto" || strategy = "brands" then [brandUrls] else [])
  strategies.foldl emitNew []

/-! ### HttpClient.fetch retry/backoff -/

/-- What one attempt of the underlying `urllib` request produces: a 200
response body, a raised `urllib.error.HTTPError` with a status, or a raised
`urllib.error.URLError` (connection-level failure). -/
inductive FetchOutcome where
  | ok (body : String)
  | httpErr (status : Nat)
  | connErr
deriving Repr, DecidableEq

def transientStatuses : List Nat := [403, 429, 500, 502, 503, 504]

/-- `min(60.0, (self.throttle_seconds or 1.0) * (2 ** (attempt - 1)))`
(lines 101 and 115). -/
def backoffWait (throttle : ℚ) (attempt : Nat) : ℚ :=
  min 60 ((if throttle = 0 then 1 else throttle) * 2 ^ (attempt - 1))

inductive FetchErr where
  | http (status : Nat)
  | net
deriving Repr, DecidableEq

/-- `HttpClient.fetch` (lines 83-126), from attempt `attempt0 + 1` on, with
the network abstracted as the per-attempt outcome; returns the final result
and the list of backoff waits slept between attempts.  A retry needs
`attempt ≤ maxRetries`, so the loop makes at most `maxRetries + 1` attempts
and the recursion decreases `maxRetries + 1 - attempt0`.  (The pre-request
throttle sleep and the in-`try` non-200 `HttpError` path are orthogonal to
the backoff computation modelled here.) -/
def fetchFrom (responses : Nat → FetchOutcome) (maxRetries : Nat) (throttle : ℚ)
    (attempt0 : Nat) : Except FetchErr String × List ℚ :=
  let attempt := attempt0 + 1
  match responses attempt with
  | .ok body => (.ok body, [])
  | .httpErr status =>
    if _h : status ∈ transientStatuses ∧ attempt ≤ maxRetries then
      let w := backoffWait throttle attempt
      let r := fetchFrom responses maxRetries throttle attempt
      (r.1, w :: r.2)
    else (.error (.http status), [])
  | .connErr =>
    if _h : attempt ≤ maxRetries then
      let w := backoffWait throttle attempt
      let r := fetchFrom responses maxRetries throttle attempt
      (r.1, w :: r.2)
    else (.error .net, [])
termination_by maxRetries + 1 - attempt0
decreasing_by
  · omega
  · omega

/-- A whole `fetch` call (attempt counter starting at 0). -/
def fetchRun (responses : Nat → FetchOutcome) (maxRetries : Nat) (throttle : ℚ) :
    Except FetchErr String × List ℚ :=
  fetchFrom responses maxRetries throttle 0

/-! ### Storage (`storage.py`) -/

/-- One `products` row (timestamps abstracted as naturals; the DuckDB
`TIMESTAMP` and SQLite ISO-text representations carry the same
null-vs-present information). -/
structure ProductRow where
  id : Nat
  brandId : Option Nat := none
  url : String
  name : Option String := none
  brandName : Option String := none
  description : Option String := none
  imageUrl : Option String := none
  ratingValue : Option Rat := none
  ratingCount : Option Int := none
  categories : Option String := none
  jsonLd : Option String := none
  discoveredAt : Option Nat := none
  scrapedAt : Option Nat := none
deriving Repr, DecidableEq

/-- One `product_ingredients` row; primary key
`(product_id, ingredient_url, ingredient_name)`. -/
structure IngredientRow where
  productId : Nat
  url : String
  name : String
  extra : Option String := none
deriving Repr, DecidableEq

/-- One `brands` row. -/
structure BrandRow where
  id : Nat
  name : String
  url : String
  discoveredAt : Option Nat := none
  processedAt : Option Nat := none
deriving Repr, DecidableEq

/-- The relational state shared by both backends. -/
structure Db where
  brands : List BrandRow := []
  products : List ProductRow := []
  productIngredients : List IngredientRow := []
  nextProductId : Nat := 1
  nextBrandId : Nat := 1
deriving Repr, DecidableEq

/-- `DataStore.has_product` (storage.py lines 131-136):
`SELECT scraped_at FROM products WHERE url = ? AND scraped_at IS NOT NULL
LIMIT 1` — true iff a row was found. -/
def hasProduct (db : Db) (url : String) : Bool :=
  db.products.any (fun r => r.url = url && r.scrapedAt.isSome)

/-- Stands for `json.dumps` on the categories list / json_ld blob / extras
dict; the exact serialised text is irrelevant to every claim. -/
def encodeCategories (l : List String) : String :=
  jsonToPyStr (Json.arr (l.map Json.str))

def encodeJson (j : Json) : String := jsonToPyStr j

def encodeExtra (m : ExtraMap) : String :=
  jsonToPyStr (Json.obj (m.map (fun p =>
    (p.1, match p.2 with
      | .s v => Json.str v
      | .ls v => Json.arr (v.map Json.str)
      | .null => Json.null))))

/-- The `(url, name, extra-json-or-null)` triples prepared at
storage.py lines 350-357. -/
def ingredientRowsOf (p : Product) : List (String × String × Option String) :=
  p.ingredients.map (fun i =>
    (i.url, i.name, if i.extra ≠ [] then some (encodeExtra i.extra) else none))

/-- Insert into `product_ingredients`, honouring the primary key: a duplicate
`(product_id, ingredient_url, ingredient_name)` raises an integrity error. -/
def insertIngredientRow (db : Db) (row : IngredientRow) : Except Unit Db :=
  if db.productIngredients.any (fun r =>
      r.productId = row.productId && r.url = row.url && r.name = row.name) then
    .error ()
  else
    .ok { db with productIngredients := db.productIngredients ++ [row] }

/-- `executemany` over the ingredient rows: rows are inserted one at a time
and the first integrity violation stops the batch, leaving the earlier rows
applied (first component: whether the statement raised). -/
def insertIngredientRows (db0 : Db) (pid : Nat)
    (rows : List (String × String × Option String)) : Bool × Db :=
  rows.foldl (fun acc r =>
    if acc.1 then acc
    else
      match insertIngredientRow acc.2 ⟨pid, r.1, r.2.1, r.2.2⟩ with
      | .ok db1 => (false, db1)
      | .error _ => (true, acc.2)) (false, db0)

/-- The UPDATE of an existing products row in `save_product`
(lines 366-392 / 445-471): `name`/`brand_name` via COALESCE, the other scalar
fields overwritten outright, `scraped_at` set to the save timestamp. -/
def saveUpdateRow (p : Product) (ts : Nat) (r : ProductRow) : ProductRow :=
  { r with
    name := if p.name.isSome then p.name else r.name,
    brandName := if p.brand.isSome then p.brand else r.brandName,
    description := p.description,
    imageUrl := p.imageUrl,
    ratingValue := p.ratingValue,
    ratingCount := p.ratingCount,
    categories := some (encodeCategories p.categories),
    jsonLd := if jTruthyOpt p.jsonLd then (p.jsonLd.map encodeJson) else none,
    scrapedAt := some ts }

/-- The INSERT of a fresh products row in `save_product`
(lines 394-416 / 473-495): `discovered_at` and `scraped_at` both set to the
save timestamp. -/
def saveInsertRow (p : Product) (ts : Nat) (pid : Nat) : ProductRow :=
  { id := pid, url := p.url,
    name := p.name, brandName := p.brand, description := p.description,
    imageUrl := p.imageUrl, ratingValue := p.ratingValue, ratingCount := p.ratingCount,
    categories := some (encodeCategories p.categories),
    jsonLd := if jTruthyOpt p.jsonLd then (p.jsonLd.map encodeJson) else none,
    discoveredAt := some ts, scrapedAt := some ts }

/-- The statement sequence shared verbatim by the two `save_product` branches:
SELECT the row id by url; UPDATE it or INSERT a new row; DELETE that id's
ingredient rows; INSERT the new ingredient rows.  Returns whether a statement
raised, together with the state exactly as the executed statements left it. -/
def saveProductWork (db0 : Db) (p : Product) (ts : Nat) : Bool × Db :=
  let step1 : Nat × Db :=
    match db0.products.find? (fun r => r.url = p.url) with
    | some row =>
      (row.id, { db0 with products := db0.products.map (fun r =>
        if r.id = row.id then saveUpdateRow p ts r else r) })
    | none =>
      (db0.nextProductId, { db0 with
        products := db0.products ++ [saveInsertRow p ts db0.nextProductId],
        nextProductId := db0.nextProductId + 1 })
  let pid := step1.1
  let db1 := step1.2
  let db2 := { db1 with
    productIngredients := db1.productIngredients.filter (fun r => r.productId ≠ pid) }
  insertIngredientRows db2 pid (ingredientRowsOf p)

/-- The outcome of one `save_product` call: whether the exception propagated
to the caller, and the resulting store state. -/
structure SaveOutcome where
  raised : Bool
  db : Db
deriving Repr, DecidableEq

/-- `DataStore.save_product`, DuckDB branch (lines 358-435): the statements
run inside `BEGIN TRANSACTION`; on an exception the branch executes
`ROLLBACK` and re-raises, so the caller sees the prior state; otherwise
`COMMIT`. -/
def saveProductDuck (db0 : Db) (p : Product) (ts : Nat) : SaveOutcome :=
  let w := saveProductWork db0 p ts
  if w.1 then { raised := true, db := db0 }
  else { raised := false, db := w.2 }

/-- A SQLite connection: the state the connection currently sees (including
any statements pending in the implicit transaction) and the last committed
state. -/
structure SqliteConn where
  db : Db
  committed : Db
deriving Repr, DecidableEq

def sqliteCommit (c : SqliteConn) : SqliteConn := { c with committed := c.db }

/-- `DataStore.save_product`, SQLite branch (lines 436-514): the same
statement sequence, but the `try`/`finally` only closes the cursor — on an
exception no `rollback()` is issued and no `commit()` happens, so the
partially-applied statements stay pending on the connection (visible to every
later query on it, and committed by the next `conn.commit()` from any other
method). -/
def saveProductSqlite (c0 : SqliteConn) (p : Product) (ts : Nat) : Bool × SqliteConn :=
  let w := saveProductWork c0.db p ts
  if w.1 then (true, { c0 with db := w.2 })
  else (false, sqliteCommit { c0 with db := w.2 })

/-- `SELECT name FROM brands WHERE id = ?` (`_get_brand_name`). -/
def getBrandName (db : Db) (brandId : Nat) : Option String :=
  (db.brands.find? (fun b => b.id = brandId)).map (fun b => b.name)

/-- One loop iteration of `add_products_for_brand` (lines 235-315, identical
statement sequences in both branches): an existing row (by url) gets
`name`/`brand_id`/`brand_name` refreshed; a new row is inserted with
`discovered_at` set and `scraped_at` left NULL. -/
def addProductStep (brandId : Nat) (brandName : Option String) (ts : Nat) (db : Db)
    (pr : String × Option String) : Db :=
  match db.products.find? (fun r => r.url = pr.1) with
  | some row =>
    let updateName : Option String :=
      match pr.2 with
      | some n => if n ≠ "" && ¬ strTruthy row.name then some n else none
      | none => none
    let updateBrand : Option String := if strTruthy brandName then brandName else none
    if updateName.isSome || updateBrand.isSome || brandId ≠ 0 then
      { db with products := db.products.map (fun r =>
        if r.id = row.id then
          { r with
            name := if updateName.isSome then updateName else r.name,
            brandId := some brandId,
            brandName := if updateBrand.isSome then updateBrand else r.brandName }
        else r) }
    else db
  | none =>
    let newRow : ProductRow := {
      id := db.nextProductId, brandId := some brandId, brandName := brandName,
      url := pr.1, name := pr.2, discoveredAt := some ts }
    { db with
      products := db.products ++ [newRow],
      nextProductId := db.nextProductId + 1 }

/-- `DataStore.add_products_for_brand`: the whole queueing loop. -/
def addProductsForBrand (db0 : Db) (brandId : Nat)
    (products : List (String × Option String)) (ts : Nat) : Db :=
  if products = [] then db0
  else products.foldl (addProductStep brandId (getBrandName db0 brandId) ts) db0

/-! ## Spec-side definitions and concrete fixtures -/

/-- Pairwise key-distinctness of a deduplicated ingredient list: two entries
never share a non-empty lower-cased URL, and two URL-less entries never share
a non-empty lower-cased name. -/
def distinctKeys (a b : Ingredient) : Prop :=
  (a.url ≠ "" → b.url ≠ "" → lowerStr a.url ≠ lowerStr b.url) ∧
  (a.url = "" → b.url = "" → a.name ≠ "" → b.name ≠ "" → lowerStr a.name ≠ lowerStr b.name)

/-- The site base URL used by the concrete fixtures. -/
def testBase : String := "https://incidecoder.com"

/-- An environment whose JSON decoder rejects every block. -/
def testEnv : Env := { jdec := fun _ => none }

/-- Markup with two mentions of the same ingredient URL: a
`detailpage__ingredient` container carrying a tooltip extra, then an anchor
carrying the display name.  The anchor's registration runs scraper.py line
403, which rebuilds the dict entry from name/url alone. -/
def evC1 : List HtmlEvent := [
  .start "div" [("class", some "detailpage")],
  .start "div" [("class", some "detailpage__ingredient"),
    ("data-ingredient-url", some "/ingredients/water"), ("data-tooltip-text", some "solvent")],
  .stop "div",
  .start "a" [("href", some "/ingredients/water"), ("data-name", some "Agua")],
  .text "Agua",
  .stop "a",
  .stop "div"]

/-- The product that `parse` extracts from `evC1`. -/
def pC1 : Product :=
  (parseHtml testEnv testBase {} evC1 "https://incidecoder.com/products/x").toOption.getD
    { url := "" }

/-- A store state with one completed product row and one ingredient row. -/
def rowP : ProductRow := { id := 1, url := "u", scrapedAt := some 5 }

def db0C2 : Db := { products := [rowP], productIngredients := [⟨1, "iu", "in", none⟩], nextProductId := 2 }

/-- A product whose ingredient list repeats the same `(url, name)` pair: its
second `product_ingredients` INSERT violates the primary key. -/
def pDup : Product := { url := "u", ingredients := [⟨"N", "U1", []⟩, ⟨"N", "U1", []⟩] }

/-- A product that saves without error. -/
def pOk : Product := { url := "u" }

/-- Brand-index fixture pages: bucket `a` page 1 links brand `foo`, page 2 is
empty, page 3 links brand `bar`; each brand page lists one product. -/
def brandFooPage : List HtmlEvent := [.start "a" [("href", some "/brands/foo")], .stop "a"]

def brandBarPage : List HtmlEvent := [.start "a" [("href", some "/brands/bar")], .stop "a"]

def fooProducts : List HtmlEvent := [.start "a" [("href", some "/products/p1")], .stop "a"]

def barProducts : List HtmlEvent := [.start "a" [("href", some "/products/p2")], .stop "a"]

def fetchC5 : FetchPage := fun path =>
  if path = "/brands?letter=a" then some brandFooPage
  else if path = "/brands?letter=a&page=2" then some []
  else if path = "/brands?letter=a&page=3" then some brandBarPage
  else if path = "https://incidecoder.com/brands/foo" then some fooProducts
  else if path = "https://incidecoder.com/brands/bar" then some barProducts
  else none

/-- Whether one attempt's outcome is a retryable (transient) failure. -/
def isTransientFail : FetchOutcome → Bool
  | .ok _ => false
  | .httpErr s => decide (s ∈ transientStatuses)
  | .connErr => true

/-- A network that answers 503 to every attempt. -/
def respC6 : Nat → FetchOutcome := fun _ => .httpErr 503

/-- The description precedence exactly as the spec words it: a non-empty
detail-page region capture overrides linked data; otherwise the linked-data
description, then the `og:description` meta, then the `description` meta. -/
def descriptionPrecedenceSpec (ldDesc detail og metaDesc : Option String) : Option String :=
  if strTruthy detail then detail
  else if strTruthy ldDesc then ldDesc
  else pyOrS og metaDesc

/-- A linked-data block with a description, for the C9 fixtures. -/
def ld9 : Json := Json.obj [("@type", Json.str "Product"), ("description", Json.str "LD desc")]

def envC9 : Env := { jdec := fun s => if s = "LD9" then some ld9 else none }

/-- Markup carrying both the `ld9` linked data and a non-empty
detail-page description region. -/
def evC9 : List HtmlEvent := [
  .start "script" [("type", some "application/ld+json")], .text "LD9", .stop "script",
  .start "div" [("class", some "detailpage")],
  .start "div" [("class", some "detailpage__description")], .text "Detail text", .stop "div",
  .stop "div"]

/-- The parser state after `evC9`. -/
def stC9 : ParserState := (runEvents testBase evC9).toOption.getD {}

/-- The product parsed from `evC9`. -/
def pC9 : Product := (parseHtml envC9 testBase {} evC9 "u").toOption.getD { url := "" }

/-- The `class` attribute of a tag carries a value (so
`attr_map.get("class", "").split()` cannot hit `None`). -/
def classAttrSafe (attrs : List (String × Option String)) : Bool :=
  match attrs.reverse.find? (fun p => p.1 = "class") with
  | some (_, none) => false
  | _ => true

/-- The `type` attribute carries a value (so the `<script>` handling's
`attr_map.get("type", "").lower()` cannot hit `None`). -/
def typeAttrSafe (attrs : List (String × Option String)) : Bool :=
  match attrs.reverse.find? (fun p => p.1 = "type") with
  | some (_, none) => false
  | _ => true

/-- Events on which the tag handlers cannot raise. -/
def eventSafe : HtmlEvent → Bool
  | .start tag attrs => classAttrSafe attrs && (!(tag = "script") || typeAttrSafe attrs)
  | _ => true

/-- A linked-data ingredient entry whose effective name field is a string (or
not truthy, in which case the entry is skipped): the seeding loop cannot hit
`name.strip()` on a non-string. -/
def seedItemSafe (item : Json) : Bool :=
  match item with
  | .obj _ =>
    match pyOrJ (jget item "name") (pyOrJ (jget item "@id") (jget item "identifier")) with
    | some (.str _) => true
    | some j => ! jTruthy j
    | none => true
  | _ => true

/-- A linked-data node whose ingredient list (if any) is well-formed. -/
def jsonLdSafe (jd : Json) : Bool :=
  match pyOrJ (jget jd "hasIngredient") (pyOrJ (jget jd "ingredient") (jget jd "ingredients")) with
  | some (.arr items) => items.all seedItemSafe
  | _ => true

/-- A whitespace text node, as emitted between tags of an indented page. -/
def wsE : HtmlEvent := .text "
  "

/-- The event stream of the repository unit test
`test_parses_detailpage_sections` (a full detail page with description,
materials, function, highlight and ingredient sections). -/
def detailEvents : List HtmlEvent := [
  .start "html" [], wsE,
  .start "head" [], wsE,
  .start "meta" [("property", some "og:title"), ("content", some "Detail Serum")], .stop "meta", wsE,
  .start "meta" [("name", some "description"), ("content", some "Fallback description")], .stop "meta", wsE,
  .stop "head", wsE,
  .start "body" [], wsE,
  .start "div" [("class", some "detailpage")], wsE,
  .start "h1" [], .text "Detail Serum", .stop "h1", wsE,
  .start "section" [("class", some "detailpage__description")], wsE,
  .start "p" [], .text "Luxurious hydration booster.", .stop "p", wsE,
  .start "p" [], .text "Leaves skin feeling soft.", .stop "p", wsE,
  .stop "section", wsE,
  .start "section" [("class", some "detailpage__materials")], wsE,
  .start "ul" [], wsE,
  .start "li" [], .text "Bio-Ceramide Complex", .stop "li", wsE,
  .start "li" [], .text "Peptide Blend", .stop "li", wsE,
  .stop "ul", wsE,
  .stop "section", wsE,
  .start "section" [("class", some "detailpage__functions")], wsE,
  .start "div" [("class", some "detailpage__function"), ("data-function", some "Soothing")], wsE,
  .start "h3" [], .text "Soothing", .stop "h3", wsE,
  .start "ul" [], wsE,
  .start "li" [], .text "Calms irritation", .stop "li", wsE,
  .start "li" [], .start "a" [("href", some "/function/hydration")], .text "Adds moisture", .stop "a", .stop "li", wsE,
  .stop "ul", wsE,
  .stop "div", wsE,
  .stop "section", wsE,
  .start "section" [("class", some "detailpage__highlights")], wsE,
  .start "div" [("class", some "detailpage__highlight")], wsE,
  .start "h4" [], .text "Why we love it", .stop "h4", wsE,
  .start "p" [], .text "Lightweight texture", .stop "p", wsE,
  .start "ul" [], .start "li" [], .text "Fragrance-free", .stop "li", .stop "ul", wsE,
  .stop "div", wsE,
  .stop "section", wsE,
  .start "section" [("class", some "detailpage__ingredients")], wsE,
  .start "div" [("class", some "detailpage__ingredient"), ("data-name", some "Betaine"), ("data-ingredient-url", some "/ingredients/betaine")], wsE,
  .start "a" [("href", some "/ingredients/betaine"), ("data-name", some "Betaine")], .text "Betaine", .stop "a", wsE,
  .start "div" [("class", some "ingredient-tooltip"), ("data-title", some "Betaine (Trimethylglycine)")], wsE,
  .start "p" [], .text "Humectant", .stop "p", wsE,
  .start "a" [("href", some "/ingredient-function/humectant")], .text "Learn more", .stop "a", wsE,
  .stop "div", wsE,
  .stop "div", wsE,
  .stop "section", wsE,
  .stop "div", wsE,
  .stop "body", wsE,
  .stop "html"]

def detailProduct : Except PyErr Product :=
  parseHtml testEnv testBase {} detailEvents "https://incidecoder.com/products/detail-serum"

/-- The linked-data block of the repository unit test
`test_parses_json_ld_and_ingredients`. -/
def ldJson : Json := Json.obj [
  ("@context", .str "https://schema.org"),
  ("@type", .str "Product"),
  ("name", .str "Magic Serum"),
  ("brand", .obj [("@type", .str "Brand"), ("name", .str "Brandless")]),
  ("description", .str "Hydrating serum"),
  ("aggregateRating", .obj [("@type", .str "AggregateRating"), ("ratingValue", .str "4.6"), ("ratingCount", .str "18")]),
  ("category", .arr [.str "Serum", .str "Treatment"]),
  ("hasIngredient", .arr [
    .obj [("@type", .str "Thing"), ("name", .str "Water"), ("@id", .str "/ingredients/water")],
    .str "Glycerin"])]

/-- The decoder/float/int collaborators for the linked-data test. -/
def ldEnv : Env := {
  jdec := fun s => if s = "LDBLOCK" then some ldJson else none,
  pyFloat := fun j => match j with | .str "4.6" => some (23 / 5 : Rat) | _ => none,
  pyInt := fun j => match j with | .str "18" => some 18 | _ => none }

def ldEvents : List HtmlEvent := [
  .start "html" [], wsE,
  .start "head" [], wsE,
  .start "meta" [("property", some "og:title"), ("content", some "Brandless Magic Serum")], .stop "meta", wsE,
  .start "script" [("type", some "application/ld+json")], .text "LDBLOCK", .stop "script", wsE,
  .stop "head", wsE,
  .start "body" [], wsE,
  .start "nav" [], .start "a" [("href", some "/brands/brandless")], .text "Brandless", .stop "a", .stop "nav", wsE,
  .start "h1" [], .text "Magic Serum", .stop "h1", wsE,
  .start "section" [], wsE,
  .start "a" [("href", some "/ingredients/water")], .text "Water", .stop "a", wsE,
  .start "a" [("href", some "/ingredients/glycerin"), ("data-name", some "Glycerin")], .text "Glycerin", .stop "a", wsE,
  .stop "section", wsE,
  .stop "body", wsE, .stop "html"]

def ldProduct : Except PyErr Product :=
  parseHtml ldEnv testBase {} ldEvents "https://incidecoder.com/products/magic-serum"

/-! ## Supporting lemmas -/

set_option maxRecDepth 10000

theorem dictGet_nil {α : Type} (k : String) : dictGet ([] : List (String × α)) k = none := rfl

theorem dictGet_cons {α : Type} (k0 : String) (v0 : α) (m : List (String × α)) (k : String) :
    dictGet ((k0, v0) :: m) k = if k0 = k then some v0 else dictGet m k := by
  simp only [dictGet, List.find?]
  by_cases h : k0 = k
  · simp [h]
  · simp [h]

theorem dictGet_append_of_some {α : Type} (m l : List (String × α)) (k : String) (v : α)
    (h : dictGet m k = some v) : dictGet (m ++ l) k = some v := by
  induction m with
  | nil => simp [dictGet_nil] at h
  | cons p rest ih =>
    obtain ⟨k0, v0⟩ := p
    rw [List.cons_append, dictGet_cons]
    rw [dictGet_cons] at h
    by_cases hk : k0 = k
    · simpa [hk] using h
    · simp only [hk, if_false] at h ⊢
      exact ih h

theorem dictGet_append_of_none {α : Type} (m : List (String × α)) (k k1 : String) (v : α)
    (h : dictGet m k = none) :
    dictGet (m ++ [(k1, v)]) k = if k1 = k then some v else none := by
  induction m with
  | nil => simp [dictGet_cons, dictGet_nil]
  | cons p rest ih =>
    obtain ⟨k0, v0⟩ := p
    rw [dictGet_cons] at h
    by_cases hk : k0 = k
    · simp [hk] at h
    · rw [List.cons_append, dictGet_cons]
      simp only [hk, if_false] at h ⊢
      exact ih h

/-! getD bookkeeping for the dedup fold -/

theorem getD_append_lt {α : Type} (l : List α) (a d : α) (i : Nat) (h : i < l.length) :
    (l ++ [a]).getD i d = l.getD i d := by
  induction l generalizing i with
  | nil => simp at h
  | cons x xs ih =>
    cases i with
    | zero => rfl
    | succ n =>
      simp only [List.length_cons, Nat.succ_lt_succ_iff] at h
      simpa using ih n h

theorem getD_append_self {α : Type} (l : List α) (a d : α) :
    (l ++ [a]).getD l.length d = a := by
  induction l with
  | nil => rfl
  | cons x xs ih => simp only [List.cons_append, List.length_cons, List.getD_cons_succ]; exact ih

theorem getD_set_self {α : Type} (l : List α) (a d : α) (i : Nat) (h : i < l.length) :
    (l.set i a).getD i d = a := by
  induction l generalizing i with
  | nil => simp at h
  | cons x xs ih =>
    cases i with
    | zero => rfl
    | succ n =>
      simp only [List.length_cons, Nat.succ_lt_succ_iff] at h
      simpa [List.set] using ih n h

theorem getD_set_ne {α : Type} (l : List α) (a d : α) (i j : Nat) (h : i ≠ j) :
    (l.set i a).getD j d = l.getD j d := by
  induction l generalizing i j with
  | nil => simp [List.set]
  | cons x xs ih =>
    cases i with
    | zero =>
      cases j with
      | zero => exact absurd rfl h
      | succ m => rfl
    | succ n =>
      cases j with
      | zero => rfl
      | succ m =>
        simp only [List.set, List.getD_cons_succ]
        exact ih n m (fun he => h (by rw [he]))

theorem getD_lt_mem {α : Type} (l : List α) (d : α) (i : Nat) (h : i < l.length) :
    l.getD i d ∈ l := by
  induction l generalizing i with
  | nil => simp at h
  | cons x xs ih =>
    cases i with
    | zero => simp [List.getD_cons_zero]
    | succ n =>
      simp only [List.length_cons, Nat.succ_lt_succ_iff] at h
      simp only [List.getD_cons_succ]
      exact List.mem_cons_of_mem _ (ih n h)

/-! ### mergeInto and dict-update behaviour -/

theorem mergeInto_name (m g : Ingredient) :
    (mergeInto m g).name = if m.name = "" && g.name ≠ "" then g.name else m.name := by
  simp only [mergeInto]
  split_ifs <;> simp_all

theorem mergeInto_url (m g : Ingredient) :
    (mergeInto m g).url = if m.url = "" && g.url ≠ "" then g.url else m.url := by
  simp only [mergeInto]
  split_ifs <;> simp_all

theorem mergeInto_extra (m g : Ingredient) :
    (mergeInto m g).extra =
      if g.extra ≠ [] then
        dictUpdate m.extra (g.extra.filter (fun p => p.2 ≠ ExtraVal.null))
      else m.extra := by
  simp only [mergeInto]
  split_ifs <;> simp_all

theorem dictGet_dictSet {α : Type} (m : List (String × α)) (k : String) (v : α) (k1 : String) :
    dictGet (dictSet m k v) k1 = if k = k1 then some v else dictGet m k1 := by
  induction m with
  | nil => simp [dictSet, dictGet_cons, dictGet_nil]
  | cons p rest ih =>
    obtain ⟨k0, v0⟩ := p
    simp only [dictSet]
    by_cases hk0 : k0 = k
    · subst hk0
      rw [if_pos rfl, dictGet_cons, dictGet_cons]
      by_cases hk1 : k0 = k1 <;> simp [hk1]
    · simp only [hk0, if_false]
      rw [dictGet_cons, dictGet_cons, ih]
      by_cases hk01 : k0 = k1
      · subst hk01
        simp only [if_pos rfl]
        have : ¬ k = k0 := fun he => hk0 he.symm
        simp [this]
      · simp [hk01]

theorem dictGet_eq_none_of_not_mem {α : Type} (m : List (String × α)) (k : String)
    (h : k ∉ m.map Prod.fst) : dictGet m k = none := by
  induction m with
  | nil => rfl
  | cons p rest ih =>
    obtain ⟨k0, v0⟩ := p
    simp only [List.map_cons, List.mem_cons] at h
    push_neg at h
    rw [dictGet_cons, if_neg (fun he => h.1 he.symm)]
    exact ih h.2

theorem dictGet_dictUpdate {α : Type} (m other : List (String × α)) (k : String)
    (h : (other.map Prod.fst).Nodup) :
    dictGet (dictUpdate m other) k =
      match dictGet other k with
      | some v => some v
      | none => dictGet m k := by
  induction other generalizing m with
  | nil => simp [dictUpdate, dictGet_nil]
  | cons p rest ih =>
    obtain ⟨k0, v0⟩ := p
    simp only [List.map_cons, List.nodup_cons] at h
    have step : dictUpdate m ((k0, v0) :: rest) = dictUpdate (dictSet m k0 v0) rest := by
      simp [dictUpdate]
    rw [step, ih (dictSet m k0 v0) h.2, dictGet_cons]
    by_cases hk : k0 = k
    · subst hk
      have hnone : dictGet rest k0 = none := dictGet_eq_none_of_not_mem rest k0 h.1
      rw [hnone]
      simp [dictGet_dictSet]
    · simp only [hk, if_false]
      cases dictGet rest k with
      | none => simp [dictGet_dictSet, hk]
      | some v => rfl

/-! ### The dedup fold invariant -/

/-- The inductive invariant of the dedup loop state: every registered URL key
points below the output's length at an entry whose `url` is non-empty; every
registered name key points below the length; for every emitted entry with a
non-empty `url`, its lower-cased url is registered to its own index; and for
every URL-less entry with a non-empty name, its lower-cased name is
registered to its own index. -/
structure DedupInv (s : DedupState) : Prop where
  urlIdxLt : ∀ kv ∈ s.byUrl, kv.2 < s.out.length
  urlIdxUrl : ∀ kv ∈ s.byUrl, (s.out.getD kv.2 dIng).url ≠ ""
  nameIdxLt : ∀ kv ∈ s.byName, kv.2 < s.out.length
  urlComplete : ∀ i, i < s.out.length → (s.out.getD i dIng).url ≠ "" →
    dictGet s.byUrl (lowerStr (s.out.getD i dIng).url) = some i
  nameComplete : ∀ i, i < s.out.length → (s.out.getD i dIng).url = "" →
    (s.out.getD i dIng).name ≠ "" →
    dictGet s.byName (lowerStr (s.out.getD i dIng).name) = some i

theorem dedupInv_init : DedupInv {} := by
  refine ⟨?_, ?_, ?_, ?_, ?_⟩ <;> intro x hx <;> simp at hx

theorem dictGet_mem {α : Type} (m : List (String × α)) (k : String) (v : α)
    (h : dictGet m k = some v) : (k, v) ∈ m := by
  induction m with
  | nil => simp [dictGet_nil] at h
  | cons p rest ih =>
    obtain ⟨k0, v0⟩ := p
    rw [dictGet_cons] at h
    by_cases hk : k0 = k
    · subst hk
      rw [if_pos rfl] at h
      cases h
      exact List.mem_cons_self _ _
    · simp only [hk, if_false] at h
      exact List.mem_cons_of_mem _ (ih h)

theorem registerKey_preserve (idx : List (String × Nat)) (k : Option String) (i : Nat)
    (k1 : String) (j : Nat) (h : dictGet idx k1 = some j) :
    dictGet (registerKey idx k i) k1 = some j := by
  cases k with
  | none => exact h
  | some k =>
    simp only [registerKey]
    by_cases hn : dictGet idx k = none
    · simp only [hn, if_pos rfl]
      exact dictGet_append_of_some idx _ k1 j h
    · simpa [hn] using h

theorem registerKey_new (idx : List (String × Nat)) (k : String) (i : Nat)
    (h : dictGet idx k = none) :
    dictGet (registerKey idx (some k) i) k = some i := by
  simp only [registerKey]
  rw [if_pos h, dictGet_append_of_none idx k k i h]
  simp

theorem registerKey_mem (idx : List (String × Nat)) (k : Option String) (i : Nat)
    (kv : String × Nat) (h : kv ∈ registerKey idx k i) :
    kv ∈ idx ∨ (k = some kv.1 ∧ kv.2 = i) := by
  cases k with
  | none => exact Or.inl h
  | some k =>
    simp only [registerKey] at h
    by_cases hn : dictGet idx k = none
    · simp only [hn, if_pos rfl] at h
      rcases List.mem_append.mp h with h1 | h2
      · exact Or.inl h1
      · obtain ⟨k1, i1⟩ := kv
        simp only [List.mem_singleton, Prod.mk.injEq] at h2
        exact Or.inr ⟨by simp [h2.1], h2.2⟩
    · simp only [hn, if_false] at h
      exact Or.inl h

theorem dedupTarget_none (s : DedupState) (uk nk : Option String)
    (h : dedupTarget s uk nk = none) :
    (∀ k, uk = some k → dictGet s.byUrl k = none) ∧
    (∀ k, nk = some k → dictGet s.byName k = none) := by
  cases uk with
  | none =>
    refine ⟨fun k hk => by simp at hk, fun k hk => ?_⟩
    subst hk
    simpa [dedupTarget] using h
  | some k0 =>
    simp only [dedupTarget] at h
    cases hu : dictGet s.byUrl k0 with
    | some i => rw [hu] at h; exact absurd h (by simp)
    | none =>
      rw [hu] at h
      refine ⟨fun k hk => by cases hk; exact hu, fun k hk => ?_⟩
      subst hk
      simpa using h

theorem dedupTarget_some (s : DedupState) (uk nk : Option String) (i : Nat)
    (h : dedupTarget s uk nk = some i) :
    (∃ k, uk = some k ∧ dictGet s.byUrl k = some i) ∨
    ((∀ k, uk = some k → dictGet s.byUrl k = none) ∧
      ∃ k, nk = some k ∧ dictGet s.byName k = some i) := by
  cases uk with
  | none =>
    cases nk with
    | none => simp [dedupTarget] at h
    | some k2 =>
      right
      exact ⟨fun k hk => by simp at hk, k2, rfl, by simpa [dedupTarget] using h⟩
  | some k0 =>
    simp only [dedupTarget] at h
    cases hu : dictGet s.byUrl k0 with
    | some j =>
      rw [hu] at h
      simp only [Option.some.injEq] at h
      exact Or.inl ⟨k0, rfl, by rw [hu, h]⟩
    | none =>
      rw [hu] at h
      cases nk with
      | none => simp at h
      | some k2 =>
        right
        exact ⟨fun k hk => by cases hk; exact hu, k2, rfl, by simpa using h⟩

theorem getD_eq_getElem {α : Type} (l : List α) (d : α) (i : Nat) (h : i < l.length) :
    l.getD i d = l[i] := by
  induction l generalizing i with
  | nil => simp at h
  | cons x xs ih =>
    cases i with
    | zero => rfl
    | succ n =>
      simp only [List.length_cons, Nat.succ_lt_succ_iff] at h
      simpa using ih n h

theorem dedupInv_step (s : DedupState) (g : Ingredient) (inv : DedupInv s) :
    DedupInv (dedupStep s g) := by
  unfold dedupStep
  set uk := (if g.url ≠ "" then some (lowerStr g.url) else none) with huk
  set nk := (if g.name ≠ "" then some (lowerStr g.name) else none) with hnk
  have hukSome : ∀ k, uk = some k → g.url ≠ "" ∧ k = lowerStr g.url := by
    intro k hk
    rw [huk] at hk
    by_cases hgu : g.url = ""
    · simp [hgu] at hk
    · simp only [hgu, ne_eq, not_false_eq_true, if_pos, Option.some.injEq] at hk
      exact ⟨hgu, hk.symm⟩
  have hnkSome : ∀ k, nk = some k → g.name ≠ "" ∧ k = lowerStr g.name := by
    intro k hk
    rw [hnk] at hk
    by_cases hgn : g.name = ""
    · simp [hgn] at hk
    · simp only [hgn, ne_eq, not_false_eq_true, if_pos, Option.some.injEq] at hk
      exact ⟨hgn, hk.symm⟩
  cases htarget : dedupTarget s uk nk with
  | none =>
    obtain ⟨hukNone, hnkNone⟩ := dedupTarget_none s uk nk htarget
    simp only [htarget]
    refine ⟨?_, ?_, ?_, ?_, ?_⟩
    · intro kv hkv
      simp only [List.length_append, List.length_singleton]
      rcases registerKey_mem _ _ _ _ hkv with hold | ⟨_, hnew⟩
      · exact Nat.lt_succ_of_lt (inv.urlIdxLt kv hold)
      · rw [hnew]; omega
    · intro kv hkv
      rcases registerKey_mem _ _ _ _ hkv with hold | ⟨hku, hnew⟩
      · rw [getD_append_lt _ _ _ _ (inv.urlIdxLt kv hold)]
        exact inv.urlIdxUrl kv hold
      · rw [hnew, getD_append_self]
        exact (hukSome kv.1 hku).1
    · intro kv hkv
      simp only [List.length_append, List.length_singleton]
      rcases registerKey_mem _ _ _ _ hkv with hold | ⟨_, hnew⟩
      · exact Nat.lt_succ_of_lt (inv.nameIdxLt kv hold)
      · rw [hnew]; omega
    · intro i hi hurl
      simp only [List.length_append, List.length_singleton] at hi
      by_cases hilt : i < s.out.length
      · rw [getD_append_lt _ _ _ _ hilt] at hurl ⊢
        exact registerKey_preserve _ _ _ _ _ (inv.urlComplete i hilt hurl)
      · have hieq : i = s.out.length := by omega
        subst hieq
        rw [getD_append_self] at hurl ⊢
        have hgu : g.url ≠ "" := hurl
        have huks : uk = some (lowerStr g.url) := by rw [huk]; simp [hgu]
        have hnone := hukNone (lowerStr g.url) huks
        rw [huks]
        exact registerKey_new _ _ _ hnone
    · intro i hi hu0 hn0
      simp only [List.length_append, List.length_singleton] at hi
      by_cases hilt : i < s.out.length
      · rw [getD_append_lt _ _ _ _ hilt] at hu0 hn0 ⊢
        exact registerKey_preserve _ _ _ _ _ (inv.nameComplete i hilt hu0 hn0)
      · have hieq : i = s.out.length := by omega
        subst hieq
        rw [getD_append_self] at hu0 hn0 ⊢
        have hgn : g.name ≠ "" := hn0
        have hnks : nk = some (lowerStr g.name) := by rw [hnk]; simp [hgn]
        have hnone := hnkNone (lowerStr g.name) hnks
        rw [hnks]
        exact registerKey_new _ _ _ hnone
  | some i =>
    obtain hcases := dedupTarget_some s uk nk i htarget
    have hlt : i < s.out.length := by
      rcases hcases with ⟨k, hk, hdu⟩ | ⟨_, k2, hk2, hdn⟩
      · exact inv.urlIdxLt _ (dictGet_mem _ _ _ hdu)
      · exact inv.nameIdxLt _ (dictGet_mem _ _ _ hdn)
    set m := s.out.getD i dIng with hmdef
    have hmu := mergeInto_url m g
    have hmn := mergeInto_name m g
    have hMergedUrlKeep : m.url ≠ "" → (mergeInto m g).url = m.url := by
      intro hne
      rw [hmu, if_neg]
      simp [hne]
    have hMergedUrlFill : m.url = "" → g.url ≠ "" → (mergeInto m g).url = g.url := by
      intro h1 h2
      rw [hmu, if_pos]
      simp [h1, h2]
    have hMergedUrlEmpty : (mergeInto m g).url = "" → m.url = "" ∧ g.url = "" := by
      intro hem
      rw [hmu] at hem
      by_cases h1 : m.url = ""
      · by_cases h2 : g.url = ""
        · exact ⟨h1, h2⟩
        · have : (decide (m.url = "") && decide (g.url ≠ "")) = true := by simp [h1, h2]
          rw [this] at hem
          simp at hem
          exact absurd hem h2
      · have : (decide (m.url = "") && decide (g.url ≠ "")) = false := by simp [h1]
        rw [this] at hem
        simp at hem
        exact absurd hem h1
    simp only [htarget]
    refine ⟨?_, ?_, ?_, ?_, ?_⟩
    · intro kv hkv
      simp only [List.length_set]
      rcases registerKey_mem _ _ _ _ hkv with hold | ⟨_, hnew⟩
      · exact inv.urlIdxLt kv hold
      · rw [hnew]; exact hlt
    · intro kv hkv
      rcases registerKey_mem _ _ _ _ hkv with hold | ⟨hku, hnew⟩
      · by_cases hkvi : kv.2 = i
        · rw [hkvi, getD_set_self _ _ _ _ hlt]
          have hold2 := inv.urlIdxUrl kv hold
          rw [hkvi, ← hmdef] at hold2
          rw [hMergedUrlKeep hold2]
          exact hold2
        · rw [getD_set_ne _ _ _ _ _ (fun he => hkvi he.symm)]
          exact inv.urlIdxUrl kv hold
      · rw [hnew, getD_set_self _ _ _ _ hlt]
        have hgu := (hukSome kv.1 hku).1
        intro hem
        exact hgu (hMergedUrlEmpty hem).2
    · intro kv hkv
      simp only [List.length_set]
      rcases registerKey_mem _ _ _ _ hkv with hold | ⟨_, hnew⟩
      · exact inv.nameIdxLt kv hold
      · rw [hnew]; exact hlt
    · intro j hj hurl
      simp only [List.length_set] at hj
      by_cases hji : j = i
      · subst hji
        rw [getD_set_self _ _ _ _ hlt] at hurl ⊢
        by_cases hmur : m.url = ""
        · have hgu : g.url ≠ "" := by
            intro hge
            exact hurl (by rw [hmu]; simp [hmur, hge])
          rw [hMergedUrlFill hmur hgu]
          have huks : uk = some (lowerStr g.url) := by rw [huk]; simp [hgu]
          rcases hcases with ⟨k, hk, hdu⟩ | ⟨hnou, k2, hk2, hdn⟩
          · exfalso
            have := inv.urlIdxUrl _ (dictGet_mem _ _ _ hdu)
            rw [← hmdef] at this
            exact this hmur
          · have hnone := hnou (lowerStr g.url) huks
            rw [huks]
            exact registerKey_new _ _ _ hnone
        · rw [hMergedUrlKeep hmur]
          have hc := inv.urlComplete j hlt (by rw [← hmdef]; exact hmur)
          rw [← hmdef] at hc
          exact registerKey_preserve _ _ _ _ _ hc
      · rw [getD_set_ne _ _ _ _ _ (fun he => hji he.symm)] at hurl ⊢
        exact registerKey_preserve _ _ _ _ _ (inv.urlComplete j (by omega) hurl)
    · intro j hj hu0 hn0
      simp only [List.length_set] at hj
      by_cases hji : j = i
      · subst hji
        rw [getD_set_self _ _ _ _ hlt] at hu0 hn0 ⊢
        obtain ⟨hmu0, hgu0⟩ := hMergedUrlEmpty hu0
        have hukNone2 : uk = none := by rw [huk]; simp [hgu0]
        rcases hcases with ⟨k, hk, hdu⟩ | ⟨_, k2, hk2, hdn⟩
        · rw [hukNone2] at hk; exact absurd hk (by simp)
        · obtain ⟨hgn, hk2l⟩ := hnkSome k2 hk2
          by_cases hmn0 : m.name = ""
          · have : (mergeInto m g).name = g.name := by
              rw [hmn, if_pos]
              simp [hmn0, hgn]
            rw [this]
            rw [hk2l] at hdn
            exact registerKey_preserve _ _ _ _ _ hdn
          · have : (mergeInto m g).name = m.name := by
              rw [hmn, if_neg]
              simp [hmn0]
            rw [this]
            have hc := inv.nameComplete j hlt (by rw [← hmdef]; exact hmu0) (by rw [← hmdef]; exact hmn0)
            rw [← hmdef] at hc
            exact registerKey_preserve _ _ _ _ _ hc
      · rw [getD_set_ne _ _ _ _ _ (fun he => hji he.symm)] at hu0 hn0 ⊢
        exact registerKey_preserve _ _ _ _ _ (inv.nameComplete j (by omega) hu0 hn0)

theorem dedupInv_foldl (l : List Ingredient) (s : DedupState) (inv : DedupInv s) :
    DedupInv (l.foldl dedupStep s) := by
  induction l generalizing s with
  | nil => exact inv
  | cons g t ih => exact ih _ (dedupInv_step s g inv)

theorem dedupeIngredients_pairwise (l : List Ingredient) :
    (dedupeIngredients l).Pairwise distinctKeys := by
  have inv := dedupInv_foldl l {} dedupInv_init
  unfold dedupeIngredients
  rw [List.pairwise_iff_getElem]
  intro i j hi hj hij
  have hgi := getD_eq_getElem (l.foldl dedupStep {}).out dIng i hi
  have hgj := getD_eq_getElem (l.foldl dedupStep {}).out dIng j hj
  constructor
  · intro hui huj hkey
    rw [← hgi] at hui hkey
    rw [← hgj] at huj hkey
    have h1 := inv.urlComplete i hi hui
    have h2 := inv.urlComplete j hj huj
    rw [hkey, h2] at h1
    exact absurd (Option.some.inj h1) (Ne.symm (Nat.ne_of_lt hij))
  · intro hui huj hni hnj hkey
    rw [← hgi] at hui hni hkey
    rw [← hgj] at huj hnj hkey
    have h1 := inv.nameComplete i hi hui hni
    have h2 := inv.nameComplete j hj huj hnj
    rw [hkey, h2] at h1
    exact absurd (Option.some.inj h1) (Ne.symm (Nat.ne_of_lt hij))

theorem reconcile_ok_ingredients (env : Env) (base : String) (st : ParserState)
    (url : String) (p : Product) (h : reconcile env base st url = .ok p) :
    ∃ l, p.ingredients = dedupeIngredients l := by
  simp only [reconcile] at h
  split at h
  · exact Except.noConfusion h
  · injection h with h
    exact ⟨_, by rw [← h]⟩

theorem parseHtml_ok_ingredients (env : Env) (base : String) (pr : ParserState)
    (events : List HtmlEvent) (url : String) (p : Product)
    (h : parseHtml env base pr events url = .ok p) :
    ∃ l, p.ingredients = dedupeIngredients l := by
  simp only [parseHtml] at h
  split at h
  · exact Except.noConfusion h
  · exact reconcile_ok_ingredients env base _ url p h

/-- **C1** (amended): after `ProductHTMLParser.parse` returns, the product's
ingredient list contains no two entries with the same non-empty lower-cased
URL, and no two URL-less entries with the same non-empty lower-cased name;
merging a further mention into an existing entry never overwrites a non-blank
name or URL and fills a blank one from the mention.  (The original claim's
stronger guarantees fail — see `claim_C1_counterexample`: line 403 rebuilds a
re-registered dict entry from the latest mention's name and URL alone, so
`extra` keys present in an earlier mention are dropped.) -/
theorem claim_C1 (env : Env) (base : String) (pr : ParserState)
    (events : List HtmlEvent) (url : String) (p : Product)
    (h : parseHtml env base pr events url = .ok p) :
    p.ingredients.Pairwise distinctKeys ∧
    (∀ m g : Ingredient,
      (m.name ≠ "" → (mergeInto m g).name = m.name) ∧
      (m.name = "" → g.name ≠ "" → (mergeInto m g).name = g.name) ∧
      (m.url ≠ "" → (mergeInto m g).url = m.url) ∧
      (m.url = "" → g.url ≠ "" → (mergeInto m g).url = g.url)) := by
  constructor
  · obtain ⟨l, hl⟩ := parseHtml_ok_ingredients env base pr events url p h
    rw [hl]
    exact dedupeIngredients_pairwise l
  · intro m g
    refine ⟨?_, ?_, ?_, ?_⟩
    · intro hm
      rw [mergeInto_name m g, if_neg]
      simp [hm]
    · intro hm hg
      rw [mergeInto_name m g, if_pos]
      simp [hm, hg]
    · intro hm
      rw [mergeInto_url m g, if_neg]
      simp [hm]
    · intro hm hg
      rw [mergeInto_url m g, if_pos]
      simp [hm, hg]

/-- Witness for `claim_C1`: the concrete parse of `evC1` satisfies its
hypothesis, with the product evaluated by `rfl`. -/
theorem claim_C1_witness :
    pC1.ingredients.Pairwise distinctKeys ∧
    (∀ m g : Ingredient,
      (m.name ≠ "" → (mergeInto m g).name = m.name) ∧
      (m.name = "" → g.name ≠ "" → (mergeInto m g).name = g.name) ∧
      (m.url ≠ "" → (mergeInto m g).url = m.url) ∧
      (m.url = "" → g.url ≠ "" → (mergeInto m g).url = g.url)) :=
  claim_C1 testEnv testBase {} evC1 "https://incidecoder.com/products/x" pC1 rfl

/-- **C1** (counterexample to the original claim): after the first three
events of `evC1` the ingredient dict's sole entry carries
`tooltip_text = "solvent"`, yet the parsed product's merged entry for the same
ingredient has an empty `extra` — the anchor's re-registration (scraper.py
line 403) rebuilt the dict entry from name and URL alone, so a field present
in one mention is not preserved in the final merged entry. -/
theorem claim_C1_counterexample :
    ((runEvents testBase (evC1.take 3)).map (fun st => st.ingredients.map (fun kv => kv.2.extra)))
      = .ok [[("tooltip_text", .s "solvent")]]
    ∧ (parseHtml testEnv testBase {} evC1 "https://incidecoder.com/products/x").map
        (fun p => p.ingredients)
      = .ok [{ name := "Agua", url := "https://incidecoder.com/ingredients/water", extra := [] }] :=
  ⟨rfl, rfl⟩

theorem any_map_invariant {α : Type} (l : List α) (f : α → α) (q : α → Bool)
    (h : ∀ a, q (f a) = q a) : (l.map f).any q = l.any q := by
  induction l with
  | nil => rfl
  | cons x xs ih => simp only [List.map_cons, List.any_cons, h x, ih]

theorem addProductStep_hasProduct (brandId : Nat) (bn : Option String) (ts : Nat)
    (db : Db) (pr : String × Option String) (url : String)
    (h : hasProduct db url = false) :
    hasProduct (addProductStep brandId bn ts db pr) url = false := by
  unfold addProductStep
  cases hf : db.products.find? (fun r => r.url = pr.1) with
  | some row =>
    dsimp only
    repeat' split
    all_goals
      first
      | exact h
      | (unfold hasProduct at h ⊢
         dsimp only
         rw [any_map_invariant]
         · exact h
         · intro r
           by_cases hid : r.id = row.id
           · rw [if_pos hid]
           · rw [if_neg hid])
  | none =>
    dsimp only
    unfold hasProduct at h ⊢
    dsimp only
    rw [List.any_append, h]
    simp

theorem foldl_addProductStep_hasProduct (brandId : Nat) (bn : Option String)
    (ts : Nat) (prs : List (String × Option String)) (db : Db) (url : String)
    (h : hasProduct db url = false) :
    hasProduct (prs.foldl (addProductStep brandId bn ts) db) url = false := by
  induction prs generalizing db with
  | nil => exact h
  | cons x xs ih => exact ih _ (addProductStep_hasProduct brandId bn ts db x url h)

theorem foldl_ins_products (pid : Nat) (rows : List (String × String × Option String))
    (acc : Bool × Db) :
    ((rows.foldl (fun acc r =>
      if acc.1 then acc
      else
        match insertIngredientRow acc.2 ⟨pid, r.1, r.2.1, r.2.2⟩ with
        | .ok db1 => (false, db1)
        | .error _ => (true, acc.2)) acc).2).products = acc.2.products := by
  induction rows generalizing acc with
  | nil => rfl
  | cons r rs ih =>
    rw [List.foldl_cons, ih]
    by_cases h1 : acc.1
    · rw [if_pos h1]
    · rw [if_neg h1]
      cases hro : insertIngredientRow acc.2 ⟨pid, r.1, r.2.1, r.2.2⟩ with
      | ok db1 =>
        simp only []
        unfold insertIngredientRow at hro
        split at hro
        · exact Except.noConfusion hro
        · injection hro with hro
          rw [← hro]
      | error e => rfl

theorem insertIngredientRows_products (db0 : Db) (pid : Nat)
    (rows : List (String × String × Option String)) :
    (insertIngredientRows db0 pid rows).2.products = db0.products :=
  foldl_ins_products pid rows (false, db0)

theorem saveProductWork_hasProduct (db0 : Db) (p : Product) (ts : Nat) :
    hasProduct (saveProductWork db0 p ts).2 p.url = true := by
  unfold saveProductWork hasProduct
  rw [insertIngredientRows_products]
  cases hf : db0.products.find? (fun r => r.url = p.url) with
  | some row =>
    simp only []
    rw [List.any_eq_true]
    refine ⟨(if row.id = row.id then saveUpdateRow p ts row else row),
      List.mem_map_of_mem _ (List.mem_of_find?_eq_some hf), ?_⟩
    rw [if_pos rfl]
    have hurl : row.url = p.url := by
      have := List.find?_some hf
      simpa using this
    simp [saveUpdateRow, hurl]
  | none =>
    simp only []
    rw [List.any_append]
    simp [saveInsertRow]

/-- **C2** (code bug): saving `pDup` — whose ingredient list repeats the same
`(url, name)` pair — makes the second `product_ingredients` INSERT raise an
integrity error in both backends.  The DuckDB branch (storage.py lines
358-435) runs inside `BEGIN TRANSACTION` and rolls back, leaving the prior
state `db0C2` intact, as claimed.  The SQLite branch (lines 436-514) has no
rollback: the error propagates, but the already-executed UPDATE, DELETE of
the old ingredient row, and first INSERT stay pending on the connection, so
the store's prior state is NOT left intact — the claim fails for SQLite. -/
theorem claim_C2 :
    (saveProductDuck db0C2 pDup 7).raised = true ∧
    (saveProductDuck db0C2 pDup 7).db = db0C2 ∧
    (saveProductSqlite ⟨db0C2, db0C2⟩ pDup 7).1 = true ∧
    (saveProductSqlite ⟨db0C2, db0C2⟩ pDup 7).2.db.productIngredients
      = [⟨1, "U1", "N", none⟩] ∧
    ¬ (saveProductSqlite ⟨db0C2, db0C2⟩ pDup 7).2.db = db0C2 := by
  refine ⟨by decide, by decide, by decide, by decide, by decide⟩

/-- **C3**: `has_product` is the resume predicate (storage.py lines 131-136):
it is false on the empty store, stays false across `add_products_for_brand`
(queueing sets `discovered_at` but never `scraped_at`), and is true for the
product's URL after a `save_product` call that returns without raising, in
either backend. -/
theorem claim_C3 (db : Db) (url : String) (brandId : Nat)
    (prs : List (String × Option String)) (ts : Nat) (p : Product) :
    hasProduct ({} : Db) url = false ∧
    (hasProduct db url = false →
      hasProduct (addProductsForBrand db brandId prs ts) url = false) ∧
    (∀ db2 : Db, (saveProductDuck db2 p ts).raised = false →
      hasProduct (saveProductDuck db2 p ts).db p.url = true) ∧
    (∀ c : SqliteConn, (saveProductSqlite c p ts).1 = false →
      hasProduct (saveProductSqlite c p ts).2.db p.url = true) := by
  refine ⟨rfl, ?_, ?_, ?_⟩
  · intro h
    unfold addProductsForBrand
    split
    · exact h
    · exact foldl_addProductStep_hasProduct brandId (getBrandName db brandId) ts prs db url h
  · intro db2 hr
    unfold saveProductDuck at hr ⊢
    by_cases hw : (saveProductWork db2 p ts).1
    · rw [if_pos hw] at hr
      exact absurd hr (by simp)
    · rw [if_neg hw]
      exact saveProductWork_hasProduct db2 p ts
  · intro c hr
    unfold saveProductSqlite at hr ⊢
    by_cases hw : (saveProductWork c.db p ts).1
    · rw [if_pos hw] at hr
      exact absurd hr (by simp)
    · rw [if_neg hw]
      exact saveProductWork_hasProduct c.db p ts

/-- Witness for `claim_C3`: concrete store runs discharging each hypothesis. -/
theorem claim_C3_witness :
    hasProduct ({} : Db) "u" = false ∧
    hasProduct (addProductsForBrand {} 1 [("u", some "Nm")] 3) "u" = false ∧
    hasProduct (saveProductDuck {} pOk 7).db "u" = true :=
  ⟨(claim_C3 {} "u" 1 [("u", some "Nm")] 3 pOk).1,
   (claim_C3 {} "u" 1 [("u", some "Nm")] 3 pOk).2.1 (by decide),
   (claim_C3 {} "u" 1 [("u", some "Nm")] 3 pOk).2.2.1 {} (by decide)⟩

/-- **C5** (amended): in `_discover_from_brands` (scraper.py lines 904-929)
a letter bucket's page walk stops at the FIRST index page that discovers zero
new brand links: that page is the last one requested and nothing further is
yielded from the bucket.  (The spec's two-consecutive-empty-pages threshold
does not match the code — see `claim_C5_counterexample`.) -/
theorem claim_C5 (fetch : FetchPage) (base token : String) (pfuel fuel page : Nat)
    (visited : List String) (events : List HtmlEvent)
    (hf : fetch (brandIndexPath token page) = some events)
    (hempty : ((lcFeed ["/brands/", "/brand/"] events).map (buildUrl base)).filter
        (fun l => l ∉ visited) = []) :
    brandBucketWalk fetch base token pfuel (fuel + 1) page visited
      = { requested := [brandIndexPath token page], yielded := [], visited := visited } := by
  unfold brandBucketWalk
  dsimp only
  rw [hf]
  dsimp only
  rw [if_pos hempty]

/-- Witness for `claim_C5`: bucket `a` of `fetchC5` at page 2 (an index page
with no new brand links) stops there. -/
theorem claim_C5_witness :
    brandBucketWalk fetchC5 testBase "a" 10 10 2 ["https://incidecoder.com/brands/foo"]
      = { requested := ["/brands?letter=a&page=2"], yielded := [],
          visited := ["https://incidecoder.com/brands/foo"] } :=
  claim_C5 fetchC5 testBase "a" 10 9 2 ["https://incidecoder.com/brands/foo"] [] rfl
    (by decide)

/-- **C5** (counterexample to the original claim): on the `fetchC5` brand
index, page 2 of bucket `a` is empty but page 3 holds a further brand.  The
code stops after the single empty page 2 — page 3 is never requested and
brand `bar`'s product p2 is never yielded — whereas the specified
two-consecutive-empty-pages walk (`brandBucketWalkSpec`) requests pages 3 and
4 and yields p2. -/
theorem claim_C5_counterexample :
    (brandBucketWalk fetchC5 testBase "a" 10 10 1 []).requested
      = ["/brands?letter=a", "/brands?letter=a&page=2"] ∧
    (brandBucketWalk fetchC5 testBase "a" 10 10 1 []).yielded
      = ["https://incidecoder.com/products/p1"] ∧
    (brandBucketWalkSpec fetchC5 testBase "a" 10 10 1 0 []).requested
      = ["/brands?letter=a", "/brands?letter=a&page=2", "/brands?letter=a&page=3",
         "/brands?letter=a&page=4"] ∧
    (brandBucketWalkSpec fetchC5 testBase "a" 10 10 1 0 []).yielded
      = ["https://incidecoder.com/products/p1", "https://incidecoder.com/products/p2"] :=
  ⟨rfl, rfl, rfl, rfl⟩

theorem fetchFrom_waits (responses : Nat → FetchOutcome) (maxRetries : Nat) (throttle : ℚ) :
    ∀ attempt0, (∀ k, attempt0 ≤ k → k < maxRetries + 1 →
      isTransientFail (responses (k + 1)) = true) →
    (fetchFrom responses maxRetries throttle attempt0).2
      = (List.range (maxRetries - attempt0)).map (fun i => backoffWait throttle (attempt0 + i + 1)) := by
  intro attempt0
  generalize hd : maxRetries + 1 - attempt0 = d
  induction d generalizing attempt0 with
  | zero =>
    intro _
    have h0 : maxRetries - attempt0 = 0 := by omega
    rw [h0, fetchFrom]
    cases responses (attempt0 + 1) with
    | ok body => rfl
    | httpErr status =>
      dsimp only
      rw [dif_neg]
      · rfl
      · exact fun hc => absurd hc.2 (by omega)
    | connErr =>
      dsimp only
      rw [dif_neg]
      · rfl
      · omega
  | succ d ih =>
    intro hfail
    have htr := hfail attempt0 (Nat.le_refl _) (by omega)
    rw [fetchFrom]
    cases hres : responses (attempt0 + 1) with
    | ok body =>
      rw [hres] at htr
      exact absurd htr (by simp [isTransientFail])
    | httpErr status =>
      rw [hres] at htr
      have hs : status ∈ transientStatuses := by
        simpa [isTransientFail] using htr
      dsimp only
      by_cases hle : attempt0 + 1 ≤ maxRetries
      · rw [dif_pos ⟨hs, hle⟩]
        have hsub : maxRetries - attempt0 = (maxRetries - (attempt0 + 1)) + 1 := by omega
        rw [ih (attempt0 + 1) (by omega) (fun k h1 h2 => hfail k (by omega) h2),
          hsub, List.range_succ_eq_map, List.map_cons, List.map_map]
        have hfun : ((fun i => backoffWait throttle (attempt0 + i + 1)) ∘ Nat.succ)
            = fun i => backoffWait throttle (attempt0 + 1 + i + 1) := by
          funext i
          show backoffWait throttle (attempt0 + (i + 1) + 1) = _
          congr 1
          omega
        rw [hfun]
      · rw [dif_neg (fun hc => hle hc.2)]
        have h0 : maxRetries - attempt0 = 0 := by omega
        rw [h0]
        rfl
    | connErr =>
      dsimp only
      by_cases hle : attempt0 + 1 ≤ maxRetries
      · rw [dif_pos hle]
        have hsub : maxRetries - attempt0 = (maxRetries - (attempt0 + 1)) + 1 := by omega
        rw [ih (attempt0 + 1) (by omega) (fun k h1 h2 => hfail k (by omega) h2),
          hsub, List.range_succ_eq_map, List.map_cons, List.map_map]
        have hfun : ((fun i => backoffWait throttle (attempt0 + i + 1)) ∘ Nat.succ)
            = fun i => backoffWait throttle (attempt0 + 1 + i + 1) := by
          funext i
          show backoffWait throttle (attempt0 + (i + 1) + 1) = _
          congr 1
          omega
        rw [hfun]
      · rw [dif_neg hle]
        have h0 : maxRetries - attempt0 = 0 := by omega
        rw [h0]
        rfl

theorem backoffWait_base_nonneg (throttle : ℚ) (h : 0 ≤ throttle) :
    (0 : ℚ) ≤ (if throttle = 0 then 1 else throttle) := by
  split
  · norm_num
  · exact h

/-- **C6**: when every attempt fails transiently (a status in
{403, 429, 500, 502, 503, 504} or a connection error), `HttpClient.fetch`
(scraper.py lines 83-126) sleeps exactly the waits
`min(60, base * 2^(k-1))` before retry attempts `k = 2, ..., maxRetries + 1`,
where `base` is `throttle_seconds`, or 1 if that is 0; the wait is
non-decreasing in `k` and never exceeds the 60-second cap. -/
theorem claim_C6 (responses : Nat → FetchOutcome) (maxRetries : Nat) (throttle : ℚ)
    (hth : 0 ≤ throttle)
    (hfail : ∀ k, k < maxRetries + 1 → isTransientFail (responses (k + 1)) = true) :
    (fetchRun responses maxRetries throttle).2
      = (List.range maxRetries).map (fun i => backoffWait throttle (i + 1)) ∧
    (∀ k : Nat, backoffWait throttle (k + 1)
      = min 60 ((if throttle = 0 then 1 else throttle) * 2 ^ k)) ∧
    (∀ k : Nat, 1 ≤ k → backoffWait throttle k ≤ backoffWait throttle (k + 1)) ∧
    (∀ k : Nat, backoffWait throttle k ≤ 60) := by
  refine ⟨?_, ?_, ?_, ?_⟩
  · have := fetchFrom_waits responses maxRetries throttle 0
      (fun k h1 h2 => hfail k h2)
    rw [fetchRun, this, Nat.sub_zero]
    apply List.map_congr_left
    intro i _
    show backoffWait throttle (0 + i + 1) = backoffWait throttle (i + 1)
    congr 1
    omega
  · intro k
    rfl
  · intro k hk
    unfold backoffWait
    apply min_le_min (le_refl (60 : ℚ))
    apply mul_le_mul_of_nonneg_left _ (backoffWait_base_nonneg throttle hth)
    apply pow_le_pow_right₀ (by norm_num : (1:ℚ) ≤ 2)
    omega
  · intro k
    unfold backoffWait
    exact min_le_left _ _

/-- Witness for `claim_C6`: three attempts against a network that always
answers 503, with a 5-second throttle. -/
theorem claim_C6_witness :
    (fetchRun respC6 2 5).2 = (List.range 2).map (fun i => backoffWait 5 (i + 1)) ∧
    (∀ k : Nat, backoffWait 5 (k + 1) = min 60 ((if (5:ℚ) = 0 then 1 else 5) * 2 ^ k)) ∧
    (∀ k : Nat, 1 ≤ k → backoffWait 5 k ≤ backoffWait 5 (k + 1)) ∧
    (∀ k : Nat, backoffWait 5 k ≤ 60) :=
  claim_C6 respC6 2 5 (by norm_num) (by decide)

theorem lcAdd_nodup (links : List String) (x : String) (h : links.Nodup) :
    (lcAdd links x).Nodup := by
  unfold lcAdd
  split
  · exact h
  · rename_i hx
    simp [List.nodup_append, h, hx]

theorem lcAdd_mem (links : List String) (x y : String) :
    y ∈ lcAdd links x ↔ y ∈ links ∨ y = x := by
  unfold lcAdd
  split
  · rename_i hx
    constructor
    · exact fun h => Or.inl h
    · intro h
      rcases h with h | h
      · exact h
      · rw [h]; exact hx
  · simp

theorem mem_takeWhile_prop {α : Type} (p : α → Bool) (l : List α) (a : α)
    (h : a ∈ l.takeWhile p) : p a = true := by
  induction l with
  | nil => simp at h
  | cons b bs ih =>
    rw [List.takeWhile_cons] at h
    by_cases hb : p b
    · rw [if_pos hb] at h
      rcases List.mem_cons.mp h with h | h
      · rw [h]; exact hb
      · exact ih h
    · rw [if_neg hb] at h
      simp at h

theorem dropFragment_no_hash (href : String) : ¬ '#' ∈ (dropFragment href).data := by
  intro h
  have := mem_takeWhile_prop _ _ _ h
  simp at this

theorem isPrefixList_takeWhile (q : Char → Bool) (p : List Char) :
    ∀ l : List Char, (∀ c ∈ p, q c = true) → isPrefixList p l = true →
    isPrefixList p (l.takeWhile q) = true := by
  induction p with
  | nil => intro l _ _; rfl
  | cons a as ih =>
    intro l hall h
    cases l with
    | nil => exact absurd h (by simp [isPrefixList])
    | cons b bs =>
      unfold isPrefixList at h
      rw [Bool.and_eq_true] at h
      obtain ⟨hab, h2⟩ := h
      have hab2 : a = b := by simpa using hab
      have hq : q b = true := hab2 ▸ hall a (by simp)
      rw [List.takeWhile_cons, if_pos hq]
      unfold isPrefixList
      rw [Bool.and_eq_true]
      exact ⟨hab, ih bs (fun c hc => hall c (by simp [hc])) h2⟩

theorem lcMatch_dropFragment (prefixes : List String) (href : String)
    (hp : ∀ p ∈ prefixes, ¬ '#' ∈ p.data) (h : lcMatch prefixes href = true) :
    lcMatch prefixes (dropFragment href) = true := by
  unfold lcMatch at h ⊢
  rw [List.any_eq_true] at h ⊢
  obtain ⟨p, hmem, hpre⟩ := h
  refine ⟨p, hmem, ?_⟩
  unfold strStartsWith at hpre ⊢
  show isPrefixList p.data (href.data.takeWhile (fun c => c ≠ '#')) = true
  apply isPrefixList_takeWhile _ _ _ _ hpre
  intro c hc
  have : c ≠ '#' := fun he => hp p hmem (he ▸ hc)
  simpa using this

theorem lcStep_extends (prefixes links : List String) (e : HtmlEvent) :
    lcStep prefixes links e = links ∨
    ∃ href, href ≠ "" ∧ lcMatch prefixes href = true ∧
      lcStep prefixes links e = lcAdd links (dropFragment href) := by
  cases e with
  | start tag attrs =>
    unfold lcStep
    dsimp only
    by_cases ht : tag = "a"
    · rw [if_pos ht]
      cases hh : attrGet attrs "href" with
      | none => exact Or.inl rfl
      | some href =>
        dsimp only
        by_cases he : href = ""
        · rw [if_pos he]; exact Or.inl rfl
        · rw [if_neg he]
          by_cases hm : lcMatch prefixes href
          · rw [if_pos hm]
            exact Or.inr ⟨href, he, hm, rfl⟩
          · rw [if_neg hm]; exact Or.inl rfl
    · rw [if_neg ht]; exact Or.inl rfl
  | stop tag => exact Or.inl rfl
  | text s => exact Or.inl rfl

theorem lcFoldl_invariant (prefixes : List String) (hp : ∀ p ∈ prefixes, ¬ '#' ∈ p.data)
    (events : List HtmlEvent) :
    ∀ acc : List String, acc.Nodup →
      (∀ x ∈ acc, lcMatch prefixes x = true ∧ ¬ '#' ∈ x.data) →
      (List.foldl (lcStep prefixes) acc events).Nodup ∧
      (∀ x ∈ List.foldl (lcStep prefixes) acc events,
        lcMatch prefixes x = true ∧ ¬ '#' ∈ x.data) := by
  induction events with
  | nil => intro acc h1 h2; exact ⟨h1, h2⟩
  | cons e es ih =>
    intro acc h1 h2
    rw [List.foldl_cons]
    rcases lcStep_extends prefixes acc e with he | ⟨href, hne, hm, he⟩
    · rw [he]; exact ih acc h1 h2
    · rw [he]
      apply ih
      · exact lcAdd_nodup acc _ h1
      · intro x hx
        rcases (lcAdd_mem acc _ x).mp hx with hx | hx
        · exact h2 x hx
        · rw [hx]
          exact ⟨lcMatch_dropFragment prefixes href hp hm, dropFragment_no_hash href⟩

theorem lcFoldl_extends_acc (prefixes : List String) (events : List HtmlEvent) :
    ∀ acc, ∃ t, List.foldl (lcStep prefixes) acc events = acc ++ t := by
  induction events with
  | nil => intro acc; exact ⟨[], (List.append_nil acc).symm⟩
  | cons e es ih =>
    intro acc
    have hstep : ∃ t1, lcStep prefixes acc e = acc ++ t1 := by
      rcases lcStep_extends prefixes acc e with he | ⟨href, _, _, he⟩
      · exact ⟨[], by rw [he, List.append_nil]⟩
      · rw [he]
        unfold lcAdd
        split
        · exact ⟨[], by rw [List.append_nil]⟩
        · exact ⟨[dropFragment href], rfl⟩
    obtain ⟨t1, ht1⟩ := hstep
    obtain ⟨t2, ht2⟩ := ih (lcStep prefixes acc e)
    exact ⟨t1 ++ t2, by rw [List.foldl_cons, ht2, ht1, List.append_assoc]⟩

/-- **C10**: after a `LinkCollector` primed with `prefixes` (none containing
`#`) consumes any event stream, its `links` list holds only fragment-stripped
href values matching one of the prefixes, each at most once; links gathered
from earlier events keep their positions as later events are consumed (order
of first occurrence); anchors without an `href` attribute, and non-anchor
events, contribute nothing (scraper.py lines 129-149). -/
theorem claim_C10 (prefixes : List String) (events : List HtmlEvent)
    (hp : ∀ p ∈ prefixes, ¬ '#' ∈ p.data) :
    (lcFeed prefixes events).Nodup ∧
    (∀ x ∈ lcFeed prefixes events, lcMatch prefixes x = true ∧ ¬ '#' ∈ x.data) ∧
    (∀ evs2, ∃ t, lcFeed prefixes (events ++ evs2) = lcFeed prefixes events ++ t) ∧
    (∀ links tag attrs, attrGet attrs "href" = none →
      lcStep prefixes links (.start tag attrs) = links) ∧
    (∀ links tag, lcStep prefixes links (.stop tag) = links) ∧
    (∀ links s, lcStep prefixes links (.text s) = links) := by
  obtain ⟨h1, h2⟩ := lcFoldl_invariant prefixes hp events [] List.nodup_nil (by simp)
  refine ⟨h1, h2, ?_, ?_, fun links tag => rfl, fun links s => rfl⟩
  · intro evs2
    unfold lcFeed
    rw [List.foldl_append]
    exact lcFoldl_extends_acc prefixes evs2 _
  · intro links tag attrs hh
    unfold lcStep
    dsimp only
    by_cases ht : tag = "a"
    · rw [if_pos ht, hh]
    · rw [if_neg ht]

/-- Witness for `claim_C10`: a stream with a fragment-carrying product link,
a duplicate, a valueless anchor and an unrelated link. -/
theorem claim_C10_witness :
    (lcFeed ["/products/"] [.start "a" [("href", some "/products/x#top")],
        .start "a" [("href", some "/products/x")], .start "a" [],
        .start "a" [("href", some "/brands/b")]]).Nodup ∧
    (∀ x ∈ lcFeed ["/products/"] [.start "a" [("href", some "/products/x#top")],
        .start "a" [("href", some "/products/x")], .start "a" [],
        .start "a" [("href", some "/brands/b")]],
      lcMatch ["/products/"] x = true ∧ ¬ '#' ∈ x.data) ∧
    (∀ evs2, ∃ t, lcFeed ["/products/"]
        ([.start "a" [("href", some "/products/x#top")],
          .start "a" [("href", some "/products/x")], .start "a" [],
          .start "a" [("href", some "/brands/b")]] ++ evs2)
      = lcFeed ["/products/"] [.start "a" [("href", some "/products/x#top")],
          .start "a" [("href", some "/products/x")], .start "a" [],
          .start "a" [("href", some "/brands/b")]] ++ t) ∧
    (∀ links tag attrs, attrGet attrs "href" = none →
      lcStep ["/products/"] links (.start tag attrs) = links) ∧
    (∀ links tag, lcStep ["/products/"] links (.stop tag) = links) ∧
    (∀ links s, lcStep ["/products/"] links (.text s) = links) :=
  claim_C10 ["/products/"] [.start "a" [("href", some "/products/x#top")],
    .start "a" [("href", some "/products/x")], .start "a" [],
    .start "a" [("href", some "/brands/b")]] (by decide)

theorem emitNew_nodup (urls : List String) :
    ∀ acc : List String, acc.Nodup → (emitNew acc urls).Nodup := by
  induction urls with
  | nil => intro acc h; exact h
  | cons u us ih =>
    intro acc h
    unfold emitNew
    rw [List.foldl_cons]
    apply ih
    split
    · exact h
    · rename_i hu
      simp [List.nodup_append, h, hu]

theorem emitNew_mem (urls : List String) :
    ∀ (acc : List String) (y : String), y ∈ emitNew acc urls ↔ y ∈ acc ∨ y ∈ urls := by
  induction urls with
  | nil => intro acc y; simp [emitNew]
  | cons u us ih =>
    intro acc y
    unfold emitNew
    rw [List.foldl_cons]
    constructor
    · intro h
      rcases (ih _ y).mp h with h | h
      · split at h
        · exact Or.inl h
        · rcases List.mem_append.mp h with h | h
          · exact Or.inl h
          · simp at h
            simp [h]
      · simp [h]
    · intro h
      apply (ih _ y).mpr
      rcases h with h | h
      · split
        · exact Or.inl h
        · exact Or.inl (List.mem_append.mpr (Or.inl h))
      · rcases List.mem_cons.mp h with h | h
        · split
          · rename_i hu
            exact Or.inl (h ▸ hu)
          · exact Or.inl (List.mem_append.mpr (Or.inr (by simp [h])))
        · exact Or.inr h

/-- **C8**: `discover_product_urls` with strategy `"auto"` (scraper.py lines
852-868) yields each URL at most once: a URL surfaced by both the sitemap
iterator and the brand iterator appears once, because the emitted-set check
silently drops URLs already emitted by an earlier strategy; the output
contains exactly the union of the two iterators' URLs. -/
theorem claim_C8 (sitemapUrls brandUrls : List String) :
    (discoverProductUrls sitemapUrls brandUrls "auto").Nodup ∧
    (∀ u, u ∈ discoverProductUrls sitemapUrls brandUrls "auto" ↔
      u ∈ sitemapUrls ∨ u ∈ brandUrls) := by
  have hred : discoverProductUrls sitemapUrls brandUrls "auto"
      = emitNew (emitNew [] sitemapUrls) brandUrls := rfl
  rw [hred]
  constructor
  · exact emitNew_nodup brandUrls _ (emitNew_nodup sitemapUrls [] List.nodup_nil)
  · intro u
    rw [emitNew_mem, emitNew_mem]
    simp

theorem descriptionChoice_eq_spec (ld detail og md : Option String) :
    descriptionChoice ld detail og md = descriptionPrecedenceSpec ld detail og md := by
  unfold descriptionChoice descriptionPrecedenceSpec pyOrS
  by_cases h1 : strTruthy ld <;> by_cases h2 : strTruthy detail <;> simp [h1, h2]

set_option maxHeartbeats 2000000 in
theorem reconcileScalar_description (env : Env) (st : ParserState) (url : String)
    (jd : Option Json) :
    (reconcileScalar env st url jd).description
      = descriptionChoice
          (match jd with
           | some j => pyOrS (jstr (jget j "description")) none
           | none => none)
          st.detailDescription (dictGet st.meta "og:description")
          (dictGet st.meta "description") := by
  unfold reconcileScalar
  cases jd with
  | none =>
    dsimp only [Id.run]
    repeat' split
    all_goals rfl
  | some j =>
    dsimp only [Id.run]
    repeat' split
    all_goals rfl

/-- **C9**: the description of a parsed product follows the precedence chain
of scraper.py line 666 and lines 720-727: a non-empty detail-page description
region capture overrides the linked-data description; with no detail capture
the linked-data description is used, then the `og:description` meta, then the
`description` meta. -/
theorem claim_C9 (env : Env) (base : String) (pr st : ParserState)
    (events : List HtmlEvent) (url : String) (p : Product)
    (hrun : runEvents base events = .ok st)
    (h : parseHtml env base pr events url = .ok p) :
    p.description = descriptionPrecedenceSpec
      (match findJsonLd env.jdec st.jsonLdBlocks with
       | some j => pyOrS (jstr (jget j "description")) none
       | none => none)
      st.detailDescription (dictGet st.meta "og:description")
      (dictGet st.meta "description") := by
  simp only [parseHtml] at h
  rw [hrun] at h
  dsimp only at h
  simp only [reconcile] at h
  split at h
  · exact Except.noConfusion h
  · injection h with h
    rw [← h]
    show (reconcileScalar env st url (findJsonLd env.jdec st.jsonLdBlocks)).description = _
    rw [reconcileScalar_description, descriptionChoice_eq_spec]

/-- Witness for `claim_C9`: the `evC9` page carries both a linked-data
description and a detail-page capture; the precedence chain selects the
detail-page text. -/
theorem claim_C9_witness :
    pC9.description = descriptionPrecedenceSpec
      (match findJsonLd envC9.jdec stC9.jsonLdBlocks with
       | some j => pyOrS (jstr (jget j "description")) none
       | none => none)
      stC9.detailDescription (dictGet stC9.meta "og:description")
      (dictGet stC9.meta "description") :=
  claim_C9 envC9 testBase {} stC9 evC9 "u" pC9 rfl rfl

theorem pyClassAttr_ok (attrs : List (String × Option String))
    (h : classAttrSafe attrs = true) : ∃ v, pyClassAttr attrs = .ok v := by
  unfold classAttrSafe at h
  unfold pyClassAttr
  cases hf : attrs.reverse.find? (fun p => p.1 = "class") with
  | none => exact ⟨"", rfl⟩
  | some kv =>
    obtain ⟨k, v⟩ := kv
    cases v with
    | none =>
      rw [hf] at h
      exact Bool.noConfusion h
    | some s => exact ⟨s, rfl⟩

theorem pyTypeAttr_ok (attrs : List (String × Option String))
    (h : typeAttrSafe attrs = true) : ∃ v, pyTypeAttr attrs = .ok v := by
  unfold typeAttrSafe at h
  unfold pyTypeAttr
  cases hf : attrs.reverse.find? (fun p => p.1 = "type") with
  | none => exact ⟨"", rfl⟩
  | some kv =>
    obtain ⟨k, v⟩ := kv
    cases v with
    | none =>
      rw [hf] at h
      exact Bool.noConfusion h
    | some s => exact ⟨s, rfl⟩

theorem handleStarttag_ok (base : String) (st : ParserState) (tag : String)
    (attrs : List (String × Option String))
    (h : eventSafe (.start tag attrs) = true) :
    ∃ st', handleStarttag base st tag attrs = .ok st' := by
  unfold eventSafe at h
  rw [Bool.and_eq_true] at h
  obtain ⟨h1, h2⟩ := h
  obtain ⟨cs, hcs⟩ := pyClassAttr_ok attrs h1
  unfold handleStarttag
  rw [hcs]
  by_cases hscript : tag = "script"
  · have h2t : typeAttrSafe attrs = true := by
      rw [hscript] at h2
      simpa using h2
    obtain ⟨tv, htv⟩ := pyTypeAttr_ok attrs h2t
    rw [if_pos hscript, htv]
    exact ⟨_, rfl⟩
  · rw [if_neg hscript]
    exact ⟨_, rfl⟩

theorem foldlM_stepEvent_ok (base : String) (events : List HtmlEvent) :
    ∀ st0 : ParserState, events.all eventSafe = true →
      ∃ st, events.foldlM (fun st e => stepEvent base st e) st0 = .ok st := by
  induction events with
  | nil => intro st0 _; exact ⟨st0, rfl⟩
  | cons e es ih =>
    intro st0 hsafe
    rw [List.all_cons, Bool.and_eq_true] at hsafe
    obtain ⟨he, hes⟩ := hsafe
    have hstep : ∃ st1, stepEvent base st0 e = .ok st1 := by
      cases e with
      | start tag attrs => exact handleStarttag_ok base st0 tag attrs he
      | stop tag => exact ⟨_, rfl⟩
      | text s => exact ⟨_, rfl⟩
    obtain ⟨st1, hst1⟩ := hstep
    obtain ⟨st2, hst2⟩ := ih st1 hes
    refine ⟨st2, ?_⟩
    rw [List.foldlM_cons, hst1]
    exact hst2

theorem ingredientKeyJson_str_ok (u s : String) :
    ∃ k, ingredientKeyJson u (.str s) = .ok k := by
  unfold ingredientKeyJson
  split
  · exact ⟨_, rfl⟩
  · exact ⟨_, rfl⟩

theorem seedItem_ok (base : String) (ings : List (String × Ingredient)) (item : Json)
    (h : seedItemSafe item = true) :
    ∃ out, seedItem base ings item = .ok out := by
  cases item with
  | obj fs =>
    unfold seedItemSafe at h
    unfold seedItem
    cases hn : pyOrJ (jget (Json.obj fs) "name")
        (pyOrJ (jget (Json.obj fs) "@id") (jget (Json.obj fs) "identifier")) with
    | none => exact ⟨ings, rfl⟩
    | some j =>
      rw [hn] at h
      dsimp only
      cases j with
      | str s =>
        by_cases hs : s = ""
        · subst hs
          exact ⟨ings, rfl⟩
        · have ht : jTruthyOpt (some (Json.str s)) = true := by
            simp [jTruthyOpt, jTruthy, hs]
          rw [ht, if_pos rfl]
          obtain ⟨key, hkey⟩ := ingredientKeyJson_str_ok
            (match pyOrJ (jget (Json.obj fs) "@id") (jget (Json.obj fs) "url") with
             | some (.str s2) => absolutize base s2
             | _ => "") s
          simp only [Option.getD_some]
          rw [hkey]
          dsimp only
          cases dictGet ings key with
          | none => exact ⟨_, rfl⟩
          | some ing =>
            dsimp only
            split
            · exact ⟨_, rfl⟩
            · exact ⟨_, rfl⟩
      | null =>
        rw [show jTruthyOpt (some Json.null) = false from rfl]
        exact ⟨ings, rfl⟩
      | bool b =>
        have hb : jTruthy (Json.bool b) = false := by simpa using h
        rw [show jTruthyOpt (some (Json.bool b)) = jTruthy (Json.bool b) from rfl, hb]
        exact ⟨ings, rfl⟩
      | num v =>
        have hb : jTruthy (Json.num v) = false := by simpa using h
        rw [show jTruthyOpt (some (Json.num v)) = jTruthy (Json.num v) from rfl, hb]
        exact ⟨ings, rfl⟩
      | arr xs =>
        have hb : jTruthy (Json.arr xs) = false := by simpa using h
        rw [show jTruthyOpt (some (Json.arr xs)) = jTruthy (Json.arr xs) from rfl, hb]
        exact ⟨ings, rfl⟩
      | obj gs =>
        have hb : jTruthy (Json.obj gs) = false := by simpa using h
        rw [show jTruthyOpt (some (Json.obj gs)) = jTruthy (Json.obj gs) from rfl, hb]
        exact ⟨ings, rfl⟩
  | str s => exact ⟨_, rfl⟩
  | null => exact ⟨_, rfl⟩
  | bool b => exact ⟨_, rfl⟩
  | num v => exact ⟨_, rfl⟩
  | arr xs => exact ⟨_, rfl⟩

theorem foldlM_seedItem_ok (base : String) (items : List Json) :
    ∀ ings : List (String × Ingredient), items.all seedItemSafe = true →
      ∃ out, items.foldlM (seedItem base) ings = .ok out := by
  induction items with
  | nil => intro ings _; exact ⟨ings, rfl⟩
  | cons it its ih =>
    intro ings hsafe
    rw [List.all_cons, Bool.and_eq_true] at hsafe
    obtain ⟨h1, h2⟩ := hsafe
    obtain ⟨out1, hout1⟩ := seedItem_ok base ings it h1
    obtain ⟨out2, hout2⟩ := ih out1 h2
    refine ⟨out2, ?_⟩
    rw [List.foldlM_cons, hout1]
    exact hout2

theorem seedJsonLd_ok (base : String) (jd : Json) (ings0 : List (String × Ingredient))
    (h : jsonLdSafe jd = true) :
    ∃ out, seedJsonLdIngredients base jd ings0 = .ok out := by
  unfold jsonLdSafe at h
  unfold seedJsonLdIngredients
  cases hi : pyOrJ (jget jd "hasIngredient")
      (pyOrJ (jget jd "ingredient") (jget jd "ingredients")) with
  | none => exact ⟨_, rfl⟩
  | some j =>
    rw [hi] at h
    cases j with
    | arr items =>
      dsimp only at h ⊢
      exact foldlM_seedItem_ok base items ings0 h
    | str s => exact ⟨_, rfl⟩
    | null => exact ⟨_, rfl⟩
    | bool b => exact ⟨_, rfl⟩
    | num v => exact ⟨_, rfl⟩
    | obj gs => exact ⟨_, rfl⟩

theorem findJsonLd_node (jdec : String → Option Json) :
    ∀ (blocks : List String) (node : Json), findJsonLd jdec blocks = some node →
      ∃ (parsed : Json) (s : String), jdec s = some parsed ∧ node ∈ iterNodes parsed := by
  intro blocks
  induction blocks with
  | nil =>
    intro node h
    exact absurd h (by simp [findJsonLd])
  | cons b bs ih =>
    intro node h
    unfold findJsonLd at h
    cases hb : jdec b with
    | none =>
      rw [hb] at h
      exact ih node h
    | some parsed =>
      rw [hb] at h
      dsimp only at h
      cases hf : firstProductNode parsed with
      | none =>
        rw [hf] at h
        exact ih node h
      | some nd =>
        rw [hf] at h
        injection h with h
        subst h
        unfold firstProductNode at hf
        exact ⟨parsed, b, hb, List.mem_of_find?_eq_some hf⟩

theorem reconcile_safe_ok (env : Env) (base : String) (st : ParserState) (url : String)
    (henv : ∀ s j, env.jdec s = some j → ∀ node ∈ iterNodes j, jsonLdSafe node = true) :
    ∃ p, reconcile env base st url = .ok p := by
  unfold reconcile
  cases hld : findJsonLd env.jdec st.jsonLdBlocks with
  | none => exact ⟨_, rfl⟩
  | some jd =>
    obtain ⟨parsed, s, hs, hmem⟩ := findJsonLd_node env.jdec st.jsonLdBlocks jd hld
    obtain ⟨out, hout⟩ := seedJsonLd_ok base jd st.ingredients (henv s parsed hs jd hmem)
    dsimp only
    rw [hout]
    exact ⟨_, rfl⟩

theorem runEvents_texts (base : String) (texts : List String) :
    runEvents base (texts.map HtmlEvent.text) = .ok ({} : ParserState) := by
  unfold runEvents
  induction texts with
  | nil => rfl
  | cons t ts ih =>
    rw [List.map_cons, List.foldlM_cons]
    exact ih

theorem parseHtml_texts (env : Env) (base : String) (pr : ParserState)
    (texts : List String) (u : String) :
    parseHtml env base pr (texts.map HtmlEvent.text) u = .ok { url := u } := by
  unfold parseHtml
  rw [runEvents_texts]
  rfl

/-- **C7** (amended): `ProductHTMLParser.parse` cannot raise on markup whose
tags never carry a valueless `class` (or, for `<script>`, `type`) attribute
and whose decodable linked-data nodes carry only well-formed ingredient
entries; a script block whose content does not decode is skipped and later
blocks are still considered; structureless (pure-text) markup yields a
product with only `url` populated.  (Unconditionally, parse CAN raise: a tag
whose `class` attribute has no value makes `attr_map.get("class", "").split()`
call `None.split()` — see `claim_C7_counterexample` — so the original "never
raises for any markup input" fails.) -/
theorem claim_C7 (env : Env) (base : String) (pr : ParserState)
    (events : List HtmlEvent) (url : String)
    (hev : events.all eventSafe = true)
    (henv : ∀ s j, env.jdec s = some j → ∀ node ∈ iterNodes j, jsonLdSafe node = true) :
    (∃ p, parseHtml env base pr events url = .ok p) ∧
    (∀ b blocks, env.jdec b = none →
      findJsonLd env.jdec (b :: blocks) = findJsonLd env.jdec blocks) ∧
    (∀ (texts : List String) (u2 : String), parseHtml env base pr (texts.map HtmlEvent.text) u2 = .ok { url := u2 }) := by
  refine ⟨?_, ?_, fun texts u2 => parseHtml_texts env base pr texts u2⟩
  · obtain ⟨st, hst⟩ := foldlM_stepEvent_ok base events ({} : ParserState) hev
    unfold parseHtml runEvents
    rw [hst]
    exact reconcile_safe_ok env base st url henv
  · intro b blocks hb
    have hstep : findJsonLd env.jdec (b :: blocks)
        = match env.jdec b with
          | none => findJsonLd env.jdec blocks
          | some parsed =>
            match firstProductNode parsed with
            | some node => some node
            | none => findJsonLd env.jdec blocks := rfl
    rw [hstep, hb]

/-- Witness for `claim_C7`: a concrete safe event stream under the
nothing-decodes environment. -/
theorem claim_C7_witness :
    (∃ p, parseHtml testEnv testBase {}
      [.start "div" [("class", some "detailpage")]] "u" = .ok p) ∧
    (∀ b blocks, testEnv.jdec b = none →
      findJsonLd testEnv.jdec (b :: blocks) = findJsonLd testEnv.jdec blocks) ∧
    (∀ (texts : List String) (u2 : String),
      parseHtml testEnv testBase {} (texts.map HtmlEvent.text) u2
      = .ok { url := u2 }) :=
  claim_C7 testEnv testBase {} [.start "div" [("class", some "detailpage")]] "u"
    (by decide) (fun s j h => Option.noConfusion h)

/-- **C7** (counterexample to the original claim): a single `<div class>` tag
whose `class` attribute carries no value makes `parse` raise
`AttributeError` (scraper.py line 224: `attr_map.get("class", "")` yields
`None`, and `None.split()` raises), so `parse` does not return a Product for
every markup input. -/
theorem claim_C7_counterexample :
    parseHtml testEnv testBase {} [.start "div" [("class", none)]] "u"
      = .error .attributeError := rfl

/-- The embedding reproduces the repository's own detail-page unit test
(`test_parses_detailpage_sections`): name, description, materials, function
and highlight blocks, and the merged ingredient with its tooltip extras. -/
theorem detailpage_scenario :
    (detailProduct.map (fun p => p.name)) = .ok (some "Detail Serum") ∧
    (detailProduct.map (fun p => p.description))
      = .ok (some "Luxurious hydration booster. Leaves skin feeling soft.") ∧
    (detailProduct.map (fun p => p.materials))
      = .ok ["Bio-Ceramide Complex", "Peptide Blend"] ∧
    (detailProduct.map (fun p => p.functions))
      = .ok [{ name := some "Soothing", items := ["Calms irritation", "Adds moisture"],
               links := ["https://incidecoder.com/function/hydration"] }] ∧
    (detailProduct.map (fun p => p.highlights))
      = .ok [{ title := some "Why we love it", text := some "Lightweight texture",
               items := ["Fragrance-free"] }] ∧
    (detailProduct.map (fun p => p.ingredients))
      = .ok [{ name := "Betaine", url := "https://incidecoder.com/ingredients/betaine",
               extra := [("tooltip_title", .s "Betaine (Trimethylglycine)"),
                         ("tooltip_text", .s "Humectant"),
                         ("tooltip_links", .ls ["https://incidecoder.com/ingredient-function/humectant"])] }] :=
  ⟨rfl, rfl, rfl, rfl, rfl, rfl⟩

/-- The embedding reproduces the repository's linked-data unit test
(`test_parses_json_ld_and_ingredients`): scalar fields from the JSON-LD node
and the seeded-then-merged ingredient list. -/
theorem jsonld_scenario :
    (ldProduct.map (fun p => p.name)) = .ok (some "Magic Serum") ∧
    (ldProduct.map (fun p => p.brand)) = .ok (some "Brandless") ∧
    (ldProduct.map (fun p => p.description)) = .ok (some "Hydrating serum") ∧
    (ldProduct.map (fun p => p.ratingValue)) = .ok (some (23 / 5 : Rat)) ∧
    (ldProduct.map (fun p => p.ratingCount)) = .ok (some 18) ∧
    (ldProduct.map (fun p => p.categories)) = .ok ["Serum", "Treatment"] ∧
    (ldProduct.map (fun p => p.ingredients.map (fun i => (i.name, i.url))))
      = .ok [("Water", "https://incidecoder.com/ingredients/water"),
             ("Glycerin", "https://incidecoder.com/ingredients/glycerin")] ∧
    (ldProduct.map (fun p => p.rawBrandLinks))
      = .ok ["https://incidecoder.com/brands/brandless"] :=
  ⟨rfl, rfl, rfl, rfl, rfl, rfl, rfl, rfl⟩

end Scrape
